import Mathlib

/-!
Verification development for the census field-specification resolution and
aggregation engine of hackathon_utils.py. The Python module is shallowly
embedded: dictionaries become association lists that keep insertion order,
pandas DataFrames become a cols-list plus keyed rows of (column, rational)
cells where an absent cell plays the role of NaN, and fallible code returns
Except. Numbers are modeled by the rationals, so division by an absent cell
yields an absent cell as in pandas, while division by zero is the rational
zero convention rather than a float infinity.
-/

namespace Hackathon

/-- Association-list lookup, the embedding of a Python dict read m[k] / m.get(k). -/
def afind {κ α : Type} [BEq κ] (m : List (κ × α)) (k : κ) : Option α :=
  (m.find? (fun p => p.1 == k)).map (fun p => p.2)

/-- Association-list write, the embedding of a Python dict write m[k] = v:
an existing key is updated in place, a new key is appended at the end
(Python dicts preserve insertion order). -/
def aset {κ α : Type} [BEq κ] (m : List (κ × α)) (k : κ) (v : α) : List (κ × α) :=
  match m with
  | [] => [(k, v)]
  | p :: rest => if p.1 == k then (k, v) :: rest else p :: aset rest k v

/-- Python str.startswith, via the character list of the string. -/
def starts_with (s p : String) : Bool :=
  p.data.isPrefixOf s.data

/-- The years entry of a category: a single year or a list of years
(the Python value is a scalar or a list; to_list normalizes it). -/
inductive YearsSpec : Type
  | one (y : Nat)
  | many (ys : List Nat)
deriving DecidableEq

/-- Embedding of to_list for the years entry. -/
def to_list : YearsSpec → List Nat
  | YearsSpec.one y => [y]
  | YearsSpec.many ys => ys

/-- A category of the configuration dict. The universe mapping stores
Option String values because Python allows None there; the sentinels
DENSITY_ONLY and NO_DENSITY_OR_RATIO are ordinary strings as in the source. -/
structure Category : Type where
  source : String
  years : Option YearsSpec := none
  fields : List (String × List String) := []
  fields_universe : List (String × Option String) := []
deriving DecidableEq

/-- A categories dict, ordered as in the Python source. -/
abbrev Config : Type := List (String × Category)

/-- Embedding of CENSUS_LATEST_YEARS. -/
def CENSUS_LATEST_YEARS : List (String × Nat) :=
  [("dec/dhc", 2020), ("acs/acs5", 2023), ("acs/acs1", 2024)]

/-- Embedding of source_to_api_dir inside format_categories_dict. An
unrecognized source only prints a warning to stderr and is returned as is. -/
def source_to_api_dir (source : String) : String :=
  if starts_with source "acs" then
    if source = "acs1" then "acs/acs1" else "acs/acs5"
  else if starts_with source "dec" then
    let dec_suffix := if source.contains '_' then (source.splitOn "_").getLastD "dhc" else "dhc"
    "dec/" ++ dec_suffix
  else if source = "dhc" then "dec/dhc"
  else source

/-- Embedding of format_years: a missing years entry is looked up in
CENSUS_LATEST_YEARS, where an unknown source raises a KeyError. -/
def format_years (source : String) (years : Option YearsSpec) : Except String (List Nat) :=
  match years with
  | none =>
    match afind CENSUS_LATEST_YEARS source with
    | some y => Except.ok [y]
    | none => Except.error ("KeyError: " ++ source)
  | some ys => Except.ok (to_list ys)

/-- Phase one of format_categories_dict: canonicalize every source and
years entry. The years entry becomes a definite list, recorded as
some (YearsSpec.many ys) since the Python dict keeps a single field. -/
def format_sources_years (categories : Config) : Except String Config :=
  categories.mapM (fun p =>
    let source := source_to_api_dir p.2.source
    match format_years source p.2.years with
    | Except.error e => Except.error e
    | Except.ok years =>
      Except.ok (p.1, { p.2 with source := source, years := some (YearsSpec.many years) }))

/-- The years list of a category read back as a list, as the Python code
does after phase one has made the entry a list. -/
def years_list (cat : Category) : List Nat :=
  match cat.years with
  | some ys => to_list ys
  | none => []

/-- Embedding of the years_by_source accumulation: a dict from source to
the set of years seen for that source, the set being a list without
duplicates. -/
def years_by_source (cats : Config) : List (String × List Nat) :=
  cats.foldl (fun m p =>
    let cur := (afind m p.2.source).getD []
    aset m p.2.source
      ((years_list p.2).foldl (fun acc y => if acc.contains y then acc else acc ++ [y]) cur)) []

/-- Embedding of years_as_prefix: true when some source has more than one
distinct survey year across the whole configuration. -/
def years_as_prefix (cats : Config) : Bool :=
  (years_by_source cats).any (fun p => 1 < p.2.length)

/-- Embedding of get_field_name. The Python guard also tests that the
leaked loop variable years is not None, which always holds once any
category exists, because phase one turned every years entry into a list. -/
def get_field_name (yp : Bool) (cat_name field_name : String) (year : Nat) : String :=
  if yp then toString year ++ "_" ++ cat_name ++ "_" ++ field_name
  else cat_name ++ "_" ++ field_name

/-- One step of the field-renaming loop body: one original field and one
year produce one formatted field entry, and the universe entry of the
original field name, when present, is copied under the new name. -/
def field_year_step (fu : List (String × Option String)) (yp : Bool) (cat_name fn : String)
    (codes : List String)
    (acc : List (String × List String) × List (String × Option String)) (year : Nat) :
    List (String × List String) × List (String × Option String) :=
  let nfn := get_field_name yp cat_name fn year
  (aset acc.1 nfn codes,
   match afind fu fn with
   | some u => aset acc.2 nfn u
   | none => acc.2)

/-- Phase two of format_categories_dict for one category: rebuild the
fields and fields_universe dicts under the formatted field names. The
default universe entry is kept under the key default when present. -/
def format_category_fields (yp : Bool) (cat_name : String) (cat : Category) : Category :=
  let fu0 : List (String × Option String) :=
    match afind cat.fields_universe "default" with
    | some d => [("default", d)]
    | none => []
  let res := cat.fields.foldl
    (fun acc p => (years_list cat).foldl (field_year_step cat.fields_universe yp cat_name p.1 p.2) acc)
    ([], fu0)
  { cat with fields := res.1, fields_universe := res.2 }

/-- Phase two applied to every category with the global years_as_prefix flag. -/
def rename_all (cats : Config) : Config :=
  cats.map (fun p => (p.1, format_category_fields ( years_as_prefix cats) p.1 p.2))

/-- Embedding of format_categories_dict with inplace=False, the value part:
source and years canonicalization followed by the global field renaming. -/
def format_categories_dict_core (categories : Config) : Except String Config :=
  match format_sources_years categories with
  | Except.error e => Except.error e
  | Except.ok cats1 => Except.ok (rename_all cats1)

/-- Embedding of format_categories_dict as invoked with inplace=False,
with the caller-visible state made explicit: the second component is the
callers configuration after the call. With inplace=False the Python code
deep-copies the argument and mutates only the copy, so the callers
structure is returned unchanged. -/
def format_categories_dict (categories : Config) : Except String Config × Config :=
  (format_categories_dict_core categories, categories)

/-- A resolved field of get_census_fields step one: qualified name, source
partition, year, numerator codes and universe code. -/
structure RField : Type where
  name : String
  source : String
  year : Nat
  sum_codes : List String
  universe_code : Option String
deriving DecidableEq

/-- Embedding of the universe lookup
fields_universe.get(field_name, fields_universe[default]). Python evaluates
the fallback argument of dict.get eagerly, so a missing default entry
raises a KeyError even when the per-field entry exists. -/
def resolve_universe (fu : List (String × Option String)) (field_name : String) :
    Except String (Option String) :=
  match afind fu "default" with
  | none => Except.error "KeyError: default"
  | some d => Except.ok ((afind fu field_name).getD d)

/-- Embedding of get_census_fields step one: flatten the formatted
categories into the list of resolved fields, category by category, field by
field, year by year. -/
def decompose_fields (cats : Config) : Except String (List RField) :=
  cats.foldlM (fun acc p =>
    p.2.fields.foldlM (fun acc2 fp =>
      (years_list p.2).foldlM (fun acc3 year =>
        match resolve_universe p.2.fields_universe fp.1 with
        | Except.error e => Except.error e
        | Except.ok u =>
          Except.ok (acc3 ++ [{ name := fp.1, source := p.2.source, year := year,
                                sum_codes := fp.2, universe_code := u : RField }])) acc2) acc) []

/-- Python c.endswith of the single letter E, read off the character list. -/
def ends_with_e (c : String) : Bool :=
  c.data.getLast? == some 'E'

/-- Embedding of add_e on a string code: sentinels are returned unchanged,
a code already ending in E is returned unchanged, otherwise E is appended. -/
def add_e (c : String) : String :=
  if c = "DENSITY_ONLY" ∨ c = "NO_DENSITY_OR_RATIO" then c
  else if ends_with_e c then c else c ++ "E"

/-- Embedding of add_e on a possibly-None code: None is returned unchanged. -/
def add_e_opt (c : Option String) : Option String :=
  match c with
  | none => none
  | some s => some (add_e s)

/-- Embedding of get_census_fields step two: for a field of a source that
starts with acs, add the E suffix to every numerator and universe code.
Fields of any other source are left untouched. -/
def apply_add_e (f : RField) : RField :=
  if starts_with f.source "acs" then
    { f with sum_codes := f.sum_codes.map add_e, universe_code := add_e_opt f.universe_code }
  else f

/-- Steps zero to two of get_census_fields: normalization, decomposition
into resolved fields, and the acs E-suffix convention. -/
def resolved_fields (categories : Config) : Except String (List RField) :=
  match format_categories_dict_core categories with
  | Except.error e => Except.error e
  | Except.ok cats =>
    match decompose_fields cats with
    | Except.error e => Except.error e
    | Except.ok fs => Except.ok (fs.map apply_add_e)

/-- A DataFrame row: the cells of one geographic unit, as a list of
(column, value) pairs. A column with no pair is an undefined (NaN) cell. -/
abbrev Row : Type := List (String × ℚ)

/-- Cell lookup in a row. -/
def row_val (r : Row) (c : String) : Option ℚ :=
  (r.find? (fun p => p.1 == c)).map (fun p => p.2)

/-- Cell write in a row: writing none erases the cell (a NaN cell and an
absent cell are identified in this model). -/
def row_set (r : Row) (c : String) (v : Option ℚ) : Row :=
  (r.filter (fun p => p.1 != c)) ++ (match v with | some q => [(c, q)] | none => [])

/-- A pandas DataFrame: an ordered list of column names and rows keyed by
the geographic identifier. The GEOID values double as the row keys; the
merges of the source join on them. -/
structure DF : Type where
  cols : List String
  rows : List (String × Row)
deriving DecidableEq

/-- The row of a key, when present. -/
def DF.row? (df : DF) (k : String) : Option Row :=
  (df.rows.find? (fun p => p.1 == k)).map (fun p => p.2)

/-- The cell of a key and column. -/
def DF.val (df : DF) (k c : String) : Option ℚ :=
  (df.row? k).bind (fun r => row_val r c)

/-- Whether a key is present. -/
def DF.hasKey (df : DF) (k : String) : Bool :=
  df.rows.any (fun p => p.1 == k)

/-- Embedding of a pandas column assignment df[c] = v: the column is
appended at the end when new, every row receives its cell, keyed by the
identifier of the row. -/
def DF.setCol (df : DF) (c : String) (v : String → Option ℚ) : DF :=
  { cols := if df.cols.contains c then df.cols else df.cols ++ [c],
    rows := df.rows.map (fun p => (p.1, row_set p.2 c (v p.1))) }

/-- Embedding of df.merge(other, on=join_on, how=outer): union of keys and
of columns. Rows present on both sides concatenate their cells, rows
present on one side keep only their own cells, so the columns of the other
side are undefined there. The row order of the model keeps the left rows
first; pandas sorts the keys of an outer merge, which no claim depends on. -/
def merge_row_ext (B : DF) (p : String × Row) : String × Row :=
  (p.1, p.2 ++ ((B.row? p.1).getD []))

def outer_merge (A B : DF) : DF :=
  { cols := A.cols ++ B.cols.filter (fun c => !A.cols.contains c),
    rows := A.rows.map (merge_row_ext B) ++ B.rows.filter (fun p => !A.hasKey p.1) }

/-- Row-wise sum of the cells of the given codes, absent cells counting as
zero exactly as the pandas skipna sum does. -/
def sum_val (df : DF) (codes : List String) (k : String) : ℚ :=
  (codes.map (fun c => (df.val k c).getD 0)).sum

/-- The state of get_census_fields step five: the per-partition working
tables and the global output column order final_df_fields (its membership
also plays the role of final_df_fields_set). -/
structure ProcState : Type where
  procs : List ((String × Nat) × DF)
  order : List String

/-- Embedding of add_fieldname. -/
def add_fieldname (order : List String) (name : String) (prepend : Bool) : List String :=
  if order.contains name then order
  else if prepend then name :: order else order ++ [name]

/-- The Python truthiness test field universe_code and not a sentinel:
None and the empty string are falsy, the two sentinels are excluded. -/
def universe_concrete (u : Option String) : Bool :=
  match u with
  | none => false
  | some s => s != "" && s != "DENSITY_ONLY" && s != "NO_DENSITY_OR_RATIO"

/-- A fresh per-partition working table: pd.DataFrame() whose rows get
keyed by the raw table index at the first column assignment. -/
def empty_proc (raw : DF) : DF :=
  { cols := [], rows := raw.rows.map (fun p => (p.1, [])) }

/-- The body of the loop over NAME and GEOID: copy the column from the raw
table into the working table when the raw table has it and the working
table does not, and register it at the front of the output column order. -/
def basic_col_step (df_raw : DF) (acc : DF × List String) (col : String) : DF × List String :=
  if df_raw.cols.contains col && !acc.1.cols.contains col then
    (acc.1.setCol col (fun k => df_raw.val k col), add_fieldname acc.2 col true)
  else acc

/-- Embedding of one iteration of the loop over fields in get_census_fields
step five: register the field name, copy NAME and GEOID (in that order, so
GEOID ends up first), compute the sum column, and compute the ratio column
when ratios are enabled and the universe code is concrete. -/
def proc_step (raw : String → Nat → DF) (compute_ratios : Bool) (st : ProcState) (f : RField) :
    ProcState :=
  let order0 := add_fieldname st.order f.name false
  let df_raw := raw f.source f.year
  let acc0 := ((afind st.procs (f.source, f.year)).getD (empty_proc df_raw), order0)
  let acc1 := basic_col_step df_raw (basic_col_step df_raw acc0 "NAME") "GEOID"
  let df1 := acc1.1.setCol f.name (fun k => some (sum_val df_raw f.sum_codes k))
  let acc2 :=
    if compute_ratios && universe_concrete f.universe_code then
      (df1.setCol (f.name ++ "_ratio")
        (fun k =>
          match df1.val k f.name, df_raw.val k (f.universe_code.getD "") with
          | some s, some u => some (s / u)
          | _, _ => none),
       add_fieldname acc1.2 (f.name ++ "_ratio") false)
    else (df1, acc1.2)
  { procs := aset st.procs (f.source, f.year) acc2.1, order := acc2.2 }

/-- The working table of the partition of f right after the NAME and GEOID
copies of one proc_step iteration. -/
def proc_acc1 (raw : String → Nat → DF) (st : ProcState) (f : RField) : DF × List String :=
  basic_col_step (raw f.source f.year)
    (basic_col_step (raw f.source f.year)
      ((afind st.procs (f.source, f.year)).getD (empty_proc (raw f.source f.year)),
       add_fieldname st.order f.name false) "NAME") "GEOID"

/-- The working table right after the sum column is computed. -/
def proc_df1 (raw : String → Nat → DF) (st : ProcState) (f : RField) : DF :=
  (proc_acc1 raw st f).1.setCol f.name
    (fun k => some (sum_val (raw f.source f.year) f.sum_codes k))

/-- The working table right after the ratio column is computed. -/
def proc_ratio_df (raw : String → Nat → DF) (st : ProcState) (f : RField) : DF :=
  (proc_df1 raw st f).setCol (f.name ++ "_ratio")
    (fun k =>
      match (proc_df1 raw st f).val k f.name,
        (raw f.source f.year).val k (f.universe_code.getD "") with
      | some s, some u => some (s / u)
      | _, _ => none)

/-- Embedding of get_census_fields step five: fold the loop body over the
resolved fields, starting from empty dictionaries. -/
def process_fields (raw : String → Nat → DF) (compute_ratios : Bool) (fs : List RField) :
    ProcState :=
  fs.foldl (proc_step raw compute_ratios) { procs := [], order := [] }

/-- Embedding of get_census_fields step six: outer-merge the per-partition
working tables in insertion order, starting from df = None. -/
def merge_step (acc : Option DF) (p : (String × Nat) × DF) : Option DF :=
  match acc with
  | none => some p.2
  | some a => some (outer_merge a p.2)

def merge_procs (procs : List ((String × Nat) × DF)) : Option DF :=
  procs.foldl merge_step none

/-- Embedding of the final column selection df[final_df_fields]. -/
def DF.select (df : DF) (cs : List String) : DF :=
  { cols := cs, rows := df.rows }

/-- Embedding of get_census_fields. The external survey API is the oracle
raw, giving the raw table of each (source, year) partition; the state FIPS
lookup and the geography clause of the request are outside the core model.
An empty configuration leaves df as None and the final selection then
raises, which the error case records. -/
def get_census_fields (categories : Config) (raw : String → Nat → DF)
    (compute_ratios : Bool) : Except String DF :=
  match resolved_fields categories with
  | Except.error e => Except.error e
  | Except.ok fs =>
    let st := process_fields raw compute_ratios fs
    match merge_procs st.procs with
    | none => Except.error "TypeError: df is None"
    | some df => Except.ok (df.select st.order)

/-- The Python truthiness test universe_code and universe_code different
from NO_DENSITY_OR_RATIO used to select density fields; DENSITY_ONLY
passes it. -/
def universe_truthy_not_ndr (u : Option String) : Bool :=
  match u with
  | none => false
  | some s => s != "" && s != "NO_DENSITY_OR_RATIO"

/-- Whether the resolved universe of a formatted field is truthy and not
the NO_DENSITY_OR_RATIO sentinel, read off the resolution result. -/
def resolved_universe_truthy (fu : List (String × Option String)) (fname : String) : Bool :=
  match resolve_universe fu fname with
  | Except.ok u => universe_truthy_not_ndr u
  | Except.error _ => false

/-- Embedding of the density-field derivation of join_census_and_add_densities
when density_fields is None: normalize the categories again, walk every
formatted field, keep those whose resolved universe is truthy and not
NO_DENSITY_OR_RATIO, and finally drop the names absent from the joined
table. -/
def density_field_step (fu : List (String × Option String)) (acc : List String)
    (fp : String × List String) : Except String (List String) :=
  match resolve_universe fu fp.1 with
  | Except.error e => Except.error e
  | Except.ok u => Except.ok (if universe_truthy_not_ndr u then acc ++ [fp.1] else acc)

def density_cat_step (acc : List String) (p : String × Category) :
    Except String (List String) :=
  p.2.fields.foldlM (density_field_step p.2.fields_universe) acc

def density_fields_from_categories (categories : Config) (geocols : List String) :
    Except String (List String) :=
  match format_categories_dict_core categories with
  | Except.error e => Except.error e
  | Except.ok cats =>
    match cats.foldlM density_cat_step ([] : List String) with
    | Except.error e => Except.error e
    | Except.ok dfs => Except.ok (dfs.filter (fun f => geocols.contains f))

/-- Embedding of the density loop: walk the columns of the joined table as
captured at loop entry, register each, and for an eligible column append
the density column named column ++ _density right after it, its cells the
column cells divided by the geometry area of the row. The geometry column
of the model carries the planar area of the shape, the only attribute the
source reads from it. -/
def density_step (density_fields : List String) (acc : DF × List String) (col : String) :
    DF × List String :=
  let acc := (acc.1, acc.2 ++ [col])
  if density_fields.contains col then
    let dn := col ++ "_density"
    (acc.1.setCol dn
      (fun k =>
        match acc.1.val k col, acc.1.val k "geometry" with
        | some v, some a => some (v / a)
        | _, _ => none),
     acc.2 ++ [dn])
  else acc

def add_density_cols (df : DF) (density_fields : List String) : DF × List String :=
  df.cols.foldl (density_step density_fields) (df, [])

/-- Embedding of join_census_and_add_densities: outer join of geometry and
census tables, derivation of the density fields from the explicit list or
from the categories, the density loop, and the final column selection. -/
def join_census_and_add_densities (df_geo df_census : DF)
    (density_fields : Option (List String)) (categories : Option Config) :
    Except String DF :=
  let df_geodata := outer_merge df_geo df_census
  let dfields : Except String (List String) :=
    match density_fields with
    | some l => Except.ok l
    | none =>
      match categories with
      | some cats => density_fields_from_categories cats df_geodata.cols
      | none => Except.ok ([] : List String)
  match dfields with
  | Except.error e => Except.error e
  | Except.ok dfl =>
    let res := add_density_cols df_geodata dfl
    Except.ok (res.1.select res.2)

/-! Specification-level column descriptions used by the theorems. -/

/-- The output columns a single resolved field contributes, in order: its
sum column, then its ratio column when ratios are enabled and the universe
code is concrete. -/
def field_cols (cr : Bool) (f : RField) : List String :=
  f.name :: (if cr && universe_concrete f.universe_code then [f.name ++ "_ratio"] else [])

/-- The output columns of a resolved field list, in first-introduced order. -/
def col_seq (cr : Bool) (fs : List RField) : List String :=
  (fs.map (field_cols cr)).flatten

/-- The identifier columns at the front of the output: GEOID, then NAME
when the raw tables carry a NAME column. -/
def id_cols (nm : Bool) : List String :=
  if nm then ["GEOID", "NAME"] else ["GEOID"]

/-- The interleaved column order the density loop produces: every column
of the joined table in place, with the density column of each eligible
column right after it. -/
def density_col_seq (cols density_fields : List String) : List String :=
  (cols.map (fun c =>
    if density_fields.contains c then [c, c ++ "_density"] else [c])).flatten

/-- Folding add_fieldname with prepend false over a list of new names. -/
def append_seq (l : List String) (xs : List String) : List String :=
  xs.foldl (fun a x => add_fieldname a x false) l

/-! Concrete fixtures used by the witnesses: a two-category configuration
with an acs and a decennial partition, covering a concrete universe code, a
DENSITY_ONLY universe and a NO_DENSITY_OR_RATIO universe, together with a
constant query oracle and a small geometry table. -/

def cfgW : Config :=
  [("income",
    { source := "acs5", years := some (YearsSpec.one 2023),
      fields := [("median", ["B19013_001"]), ("050PercentPoverty", ["C17002_002"])],
      fields_universe := [("default", some "C17002_001"),
                          ("median", some "NO_DENSITY_OR_RATIO")] }),
   ("population",
    { source := "decennial_dhc", years := some (YearsSpec.one 2020),
      fields := [("2020", ["P1_001N"])],
      fields_universe := [("default", some "DENSITY_ONLY")] })]

def rawW : DF :=
  { cols := ["GEOID", "B19013_001E", "C17002_002E", "C17002_001E", "P1_001N"],
    rows := [("g1", [("B19013_001E", 50), ("C17002_002E", 10), ("C17002_001E", 40),
                     ("P1_001N", 100)]),
             ("g2", [("B19013_001E", 60), ("C17002_002E", 5), ("C17002_001E", 20),
                     ("P1_001N", 200)])] }

def rawOracleW : String → Nat → DF := fun _ _ => rawW

def fsW : List RField := (resolved_fields cfgW).toOption.getD []

def dfW : DF := (get_census_fields cfgW rawOracleW true).toOption.getD { cols := [], rows := [] }

def geoW : DF :=
  { cols := ["GEOID", "geometry"],
    rows := [("g1", [("geometry", 4)]), ("g3", [("geometry", 8)])] }

/-- Fixture for the corrected universe-resolution claim: a category whose
universe mapping has a per-field entry but no default entry. -/
def cfg3W : Config :=
  [("cat",
    { source := "acs5", years := some (YearsSpec.one 2023),
      fields := [("f", ["X1"])],
      fields_universe := [("f", some "X0")] })]

/-- Fixture with an unrecognized source identifier. -/
def cfg8srcW : Config :=
  [("z", { source := "foobar", years := some (YearsSpec.one 2021),
           fields := [("f", ["Z1"])],
           fields_universe := [("default", some "U")] })]

/-- Fixture in which two categories flatten to the same qualified name
a_b_c for the same year. -/
def cfg8colW : Config :=
  [("a", { source := "acs5", years := some (YearsSpec.one 2023),
           fields := [("b_c", ["X1"])],
           fields_universe := [("default", some "U")] }),
   ("a_b", { source := "acs5", years := some (YearsSpec.one 2023),
             fields := [("c", ["X2"])],
             fields_universe := [("default", some "U")] })]

/-- Phase-one formatted fixture configuration. -/
def cats1W : Config := (format_sources_years cfgW).toOption.getD []

/-- First formatted category of the fixture, and its first formatted field. -/
def pcW : String × Category :=
  (rename_all cats1W).headD ("", { source := "" })

def qW : String × List String := pcW.2.fields.headD ("", [])

/-- Formatted fixture for the universe-resolution counterexample. -/
def cfg3FW : Config := (format_categories_dict_core cfg3W).toOption.getD []

/-- Concrete resolved fields for the add_e witness: one acs field before
the E suffix is applied, one decennial field. -/
def fAcsW : RField :=
  { name := "income_050PercentPoverty", source := "acs/acs5", year := 2023,
    sum_codes := ["C17002_002"], universe_code := some "C17002_001" }

def fDecW : RField :=
  { name := "population_2020", source := "dec/dhc", year := 2020,
    sum_codes := ["P1_001N"], universe_code := some "DENSITY_ONLY" }

/-- Density-eligible columns and join result used by the density witness. -/
def dflW : List String := ["income_050PercentPoverty", "population_2020"]

def resJW : DF := (join_census_and_add_densities geoW dfW (some dflW) none).toOption.getD
  { cols := [], rows := [] }

/-- Resolved-field fixtures for the ratio computation: the poverty field
after the E suffix, the median field with the NO_DENSITY_OR_RATIO
sentinel, the empty processing state, and the partition working table the
poverty step produces. -/
def fRatioW : RField :=
  { name := "income_050PercentPoverty", source := "acs/acs5", year := 2023,
    sum_codes := ["C17002_002E"], universe_code := some "C17002_001E" }

def fMedW : RField :=
  { name := "income_median", source := "acs/acs5", year := 2023,
    sum_codes := ["B19013_001E"], universe_code := some "NO_DENSITY_OR_RATIO" }

def st0W : ProcState := { procs := [], order := [] }

def dProcW : DF :=
  (afind (proc_step rawOracleW true st0W fRatioW).procs
    (fRatioW.source, fRatioW.year)).getD { cols := [], rows := [] }

/-- Formatted fixture categories, the population entry and its field. -/
def catsFW : Config := (format_categories_dict_core cfgW).toOption.getD []

def pPopW : String × Category := (catsFW.drop 1).headD ("", { source := "" })

def fpPopW : String × List String := pPopW.2.fields.headD ("", [])

/-- Density fields derived from the fixture categories over the joined
columns, and the join that derives them. -/
def dfldW : List String :=
  (density_fields_from_categories cfgW (outer_merge geoW dfW).cols).toOption.getD []

def resJ2W : DF := (join_census_and_add_densities geoW dfW none (some cfgW)).toOption.getD
  { cols := [], rows := [] }

/-! Helper lemmas about lists, association lists, rows and tables. -/

theorem contains_iff {α : Type} [BEq α] [LawfulBEq α] (l : List α) (x : α) :
    l.contains x = true ↔ x ∈ l :=
  List.elem_iff

theorem contains_false_iff {α : Type} [BEq α] [LawfulBEq α] (l : List α) (x : α) :
    l.contains x = false ↔ x ∉ l := by
  rw [← Bool.not_eq_true, not_iff_not]
  exact contains_iff l x

theorem afind_aset_self {κ α : Type} [BEq κ] [LawfulBEq κ] (m : List (κ × α)) (k : κ) (v : α) :
    afind (aset m k v) k = some v := by
  induction m with
  | nil => simp [afind, aset, List.find?]
  | cons p rest ih =>
    by_cases h : (p.1 == k) = true
    · simp [aset, h, afind, List.find?]
    · simp only [aset, h, Bool.false_eq_true, if_false]
      simpa [afind, List.find?, h] using ih

theorem afind_aset_ne {κ α : Type} [BEq κ] [LawfulBEq κ] (m : List (κ × α)) (k k' : κ) (v : α)
    (h : k' ≠ k) : afind (aset m k v) k' = afind m k' := by
  have hkk : (k == k') = false := by
    simp only [beq_eq_false_iff_ne]
    exact fun e => h e.symm
  induction m with
  | nil => simp [afind, aset, List.find?, hkk]
  | cons p rest ih =>
    by_cases hp : (p.1 == k) = true
    · have hp' : p.1 = k := by exact eq_of_beq hp
      have hpk' : (p.1 == k') = false := by rw [hp']; exact hkk
      simp [aset, hp, afind, List.find?, hkk, hpk']
    · simp only [aset, hp, Bool.false_eq_true, if_false]
      by_cases hq : (p.1 == k') = true
      · simp [afind, List.find?, hq]
      · simpa [afind, List.find?, hq] using ih

theorem mem_aset {κ α : Type} [BEq κ] (m : List (κ × α)) (k : κ) (v : α)
    (p : κ × α) (h : p ∈ aset m k v) : p = (k, v) ∨ p ∈ m := by
  induction m with
  | nil => simpa [aset] using h
  | cons q rest ih =>
    by_cases hq : (q.1 == k) = true
    · simp only [aset, hq, if_true] at h
      rcases List.mem_cons.mp h with h1 | h1
      · exact Or.inl h1
      · exact Or.inr (List.mem_cons_of_mem _ h1)
    · simp only [aset, hq, Bool.false_eq_true, if_false] at h
      rcases List.mem_cons.mp h with h1 | h1
      · exact Or.inr (h1 ▸ List.mem_cons_self _ _)
      · rcases ih h1 with h2 | h2
        · exact Or.inl h2
        · exact Or.inr (List.mem_cons_of_mem _ h2)

theorem aset_ne_nil {κ α : Type} [BEq κ] (m : List (κ × α)) (k : κ) (v : α) :
    aset m k v ≠ [] := by
  cases m with
  | nil => simp [aset]
  | cons p rest =>
    by_cases hq : (p.1 == k) = true <;> simp [aset, hq]

/-! Lemmas about add_fieldname and append_seq. -/

theorem mem_add_fieldname_of_mem (order : List String) (x n : String) (p : Bool)
    (h : x ∈ order) : x ∈ add_fieldname order n p := by
  unfold add_fieldname
  split
  · exact h
  · split
    · exact List.mem_cons_of_mem _ h
    · exact List.mem_append_left _ h

theorem self_mem_add_fieldname (order : List String) (n : String) (p : Bool) :
    n ∈ add_fieldname order n p := by
  unfold add_fieldname
  split
  · next h => exact (contains_iff order n).mp h
  · split
    · exact List.mem_cons_self _ _
    · exact List.mem_append_right _ (List.mem_singleton.mpr rfl)

theorem mem_add_fieldname (order : List String) (x n : String) (p : Bool)
    (h : x ∈ add_fieldname order n p) : x ∈ order ∨ x = n := by
  unfold add_fieldname at h
  split at h
  · exact Or.inl h
  · split at h
    · rcases List.mem_cons.mp h with h1 | h1
      · exact Or.inr h1
      · exact Or.inl h1
    · rcases List.mem_append.mp h with h1 | h1
      · exact Or.inl h1
      · exact Or.inr (List.mem_singleton.mp h1)

theorem add_fieldname_of_mem (order : List String) (n : String) (p : Bool)
    (h : n ∈ order) : add_fieldname order n p = order := by
  unfold add_fieldname
  rw [if_pos ((contains_iff order n).mpr h)]

theorem add_fieldname_of_not_mem_false (order : List String) (n : String)
    (h : n ∉ order) : add_fieldname order n false = order ++ [n] := by
  have hc : order.contains n = false := (contains_false_iff order n).mpr h
  simp [add_fieldname, hc]
  exact h

theorem append_seq_nil (l : List String) : append_seq l [] = l := rfl

theorem append_seq_cons (l : List String) (x : String) (xs : List String) :
    append_seq l (x :: xs) = append_seq (add_fieldname l x false) xs := rfl

theorem append_seq_append (l : List String) (xs ys : List String) :
    append_seq l (xs ++ ys) = append_seq (append_seq l xs) ys := by
  unfold append_seq
  exact List.foldl_append _ _ _ _

theorem mem_append_seq_of_mem (l xs : List String) (x : String) (h : x ∈ l) :
    x ∈ append_seq l xs := by
  induction xs generalizing l with
  | nil => exact h
  | cons y ys ih =>
    rw [append_seq_cons]
    exact ih _ (mem_add_fieldname_of_mem _ _ _ _ h)

theorem append_seq_eq_append (l xs : List String) (h1 : ∀ x ∈ xs, x ∉ l)
    (h2 : xs.Nodup) : append_seq l xs = l ++ xs := by
  induction xs generalizing l with
  | nil => simp [append_seq_nil]
  | cons y ys ih =>
    rw [append_seq_cons, add_fieldname_of_not_mem_false l y (h1 y (List.mem_cons_self _ _))]
    rw [ih (l ++ [y])]
    · simp
    · intro x hx
      intro hmem
      rcases List.mem_append.mp hmem with hm | hm
      · exact h1 x (List.mem_cons_of_mem _ hx) hm
      · have : x = y := List.mem_singleton.mp hm
        exact (List.nodup_cons.mp h2).1 (this ▸ hx)
    · exact (List.nodup_cons.mp h2).2

/-! Lemmas about rows and tables. -/

theorem find?_filter_of_imp {α : Type} (l : List α) (p q : α → Bool)
    (h : ∀ x, p x = true → q x = true) :
    (l.filter q).find? p = l.find? p := by
  induction l with
  | nil => rfl
  | cons a as ih =>
    rw [List.filter_cons]
    by_cases hq : q a = true
    · rw [if_pos hq]
      by_cases hp : p a = true
      · rw [List.find?_cons_of_pos _ hp, List.find?_cons_of_pos _ hp]
      · rw [List.find?_cons_of_neg _ (by simp [hp]), List.find?_cons_of_neg _ (by simp [hp])]
        exact ih
    · rw [if_neg hq]
      have hp : ¬p a = true := fun hpa => hq (h a hpa)
      rw [List.find?_cons_of_neg _ (by simp [hp])]
      exact ih

theorem find?_key_map {β : Type} (rows : List (String × β)) (g : (String × β) → β) (k : String) :
    (rows.map (fun p => (p.1, g p))).find? (fun p => p.1 == k)
      = (rows.find? (fun p => p.1 == k)).map (fun p => (p.1, g p)) := by
  induction rows with
  | nil => rfl
  | cons a as ih =>
    by_cases h : (a.1 == k) = true
    · simp [List.find?, h]
    · simpa [List.find?, h] using ih

theorem find?_map_merge_row_ext (rows : List (String × Row)) (B : DF) (k : String) :
    (rows.map (merge_row_ext B)).find? (fun p => p.1 == k)
      = (rows.find? (fun p => p.1 == k)).map (merge_row_ext B) := by
  induction rows with
  | nil => rfl
  | cons a as ih =>
    by_cases h : (a.1 == k) = true
    · simp [List.find?, merge_row_ext, h]
    · simpa [List.find?, merge_row_ext, h] using ih

theorem row_val_row_set_self (r : Row) (c : String) (v : Option ℚ) :
    row_val (row_set r c v) c = v := by
  unfold row_val row_set
  rw [List.find?_append]
  have hnone : (r.filter (fun p => p.1 != c)).find? (fun p => p.1 == c) = none := by
    rw [List.find?_eq_none]
    intro x hx
    have hne := (List.mem_filter.mp hx).2
    simp only [bne_iff_ne, ne_eq] at hne
    simp [hne]
  rw [hnone]
  cases v with
  | none => rfl
  | some q => simp [List.find?]

theorem row_val_row_set_ne (r : Row) (c c' : String) (v : Option ℚ) (h : c' ≠ c) :
    row_val (row_set r c v) c' = row_val r c' := by
  have hfilter : (r.filter (fun p => p.1 != c)).find? (fun p => p.1 == c')
      = r.find? (fun p => p.1 == c') := by
    apply find?_filter_of_imp
    intro x hx
    have hx1 : x.1 = c' := eq_of_beq hx
    simp [hx1, bne_iff_ne, h]
  have hcc : (c == c') = false := by
    simp only [beq_eq_false_iff_ne]
    exact fun e => h e.symm
  cases v with
  | none =>
    unfold row_val row_set
    rw [List.find?_append, hfilter]
    cases r.find? (fun p => p.1 == c') <;> rfl
  | some q =>
    unfold row_val row_set
    rw [List.find?_append, hfilter]
    have : List.find? (fun p => p.1 == c') [(c, q)] = none := by
      simp [List.find?, hcc]
    rw [this]
    cases r.find? (fun p => p.1 == c') <;> rfl

theorem setCol_row? (df : DF) (c : String) (v : String → Option ℚ) (k : String) :
    (df.setCol c v).row? k = (df.row? k).map (fun r => row_set r c (v k)) := by
  unfold DF.setCol DF.row?
  simp only
  rw [find?_key_map df.rows (fun p => row_set p.2 c (v p.1)) k]
  cases hf : df.rows.find? (fun p => p.1 == k) with
  | none => rfl
  | some q =>
    have hbe := @List.find?_some (String × Row) (fun p => p.1 == k) _ _ hf
    have hk : q.1 = k := eq_of_beq hbe
    simp [hk]

theorem hasKey_iff_row? (df : DF) (k : String) :
    df.hasKey k = true ↔ ∃ r, df.row? k = some r := by
  unfold DF.hasKey DF.row?
  rw [List.any_eq_true]
  constructor
  · rintro ⟨x, hx, hpx⟩
    have hs : (df.rows.find? (fun p => p.1 == k)).isSome := List.find?_isSome.mpr ⟨x, hx, hpx⟩
    rcases Option.isSome_iff_exists.mp hs with ⟨q, hq⟩
    exact ⟨q.2, by rw [hq]; rfl⟩
  · rintro ⟨r, hr⟩
    cases hf : df.rows.find? (fun p => p.1 == k) with
    | none => rw [hf] at hr; cases hr
    | some q =>
      have hbe := @List.find?_some (String × Row) (fun p => p.1 == k) _ _ hf
      exact ⟨q, List.mem_of_find?_eq_some hf, hbe⟩

theorem val_setCol_self (df : DF) (c : String) (v : String → Option ℚ) (k : String)
    (h : df.hasKey k = true) : (df.setCol c v).val k c = v k := by
  unfold DF.val
  rw [setCol_row?]
  rcases (hasKey_iff_row? df k).mp h with ⟨r, hr⟩
  rw [hr]
  simp [row_val_row_set_self]

theorem val_setCol_ne (df : DF) (c : String) (v : String → Option ℚ) (k c' : String)
    (h : c' ≠ c) : (df.setCol c v).val k c' = df.val k c' := by
  unfold DF.val
  rw [setCol_row?]
  cases hr : df.row? k with
  | none => rfl
  | some r => simp [row_val_row_set_ne _ _ _ _ h]

theorem hasKey_setCol (df : DF) (c : String) (v : String → Option ℚ) (k : String) :
    (df.setCol c v).hasKey k = df.hasKey k := by
  unfold DF.hasKey DF.setCol
  simp only
  rw [List.any_map]
  rfl

theorem mem_cols_setCol (df : DF) (c : String) (v : String → Option ℚ) (x : String) :
    x ∈ (df.setCol c v).cols ↔ x ∈ df.cols ∨ x = c := by
  unfold DF.setCol
  simp only
  by_cases h : df.cols.contains c = true
  · rw [if_pos h]
    constructor
    · exact Or.inl
    · rintro (h1 | h1)
      · exact h1
      · exact h1 ▸ (contains_iff _ _).mp h
  · rw [if_neg h]
    simp [List.mem_append]

theorem hasKey_outer_merge (A B : DF) (k : String) :
    (outer_merge A B).hasKey k = true ↔ A.hasKey k = true ∨ B.hasKey k = true := by
  unfold outer_merge DF.hasKey
  simp only [List.any_append, Bool.or_eq_true, List.any_map, List.any_eq_true,
    List.mem_filter, Function.comp]
  constructor
  · rintro (⟨x, hx, hpx⟩ | ⟨x, ⟨hx, _⟩, hpx⟩)
    · exact Or.inl ⟨x, hx, hpx⟩
    · exact Or.inr ⟨x, hx, hpx⟩
  · rintro (⟨x, hx, hpx⟩ | ⟨x, hx, hpx⟩)
    · exact Or.inl ⟨x, hx, hpx⟩
    · by_cases hA : A.rows.any (fun p => p.1 == k) = true
      · rcases List.any_eq_true.mp hA with ⟨y, hy, hpy⟩
        exact Or.inl ⟨y, hy, hpy⟩
      · refine Or.inr ⟨x, ⟨hx, ?_⟩, hpx⟩
        have hk : x.1 = k := eq_of_beq hpx
        rw [hk]
        simp [hA]

theorem mem_cols_outer_merge (A B : DF) (c : String) :
    c ∈ (outer_merge A B).cols ↔ c ∈ A.cols ∨ c ∈ B.cols := by
  unfold outer_merge
  simp only [List.mem_append, List.mem_filter]
  constructor
  · rintro (h | ⟨h, _⟩)
    · exact Or.inl h
    · exact Or.inr h
  · rintro (h | h)
    · exact Or.inl h
    · by_cases hA : c ∈ A.cols
      · exact Or.inl hA
      · refine Or.inr ⟨h, ?_⟩
        have hc : A.cols.contains c = false := (contains_false_iff A.cols c).mpr hA
        rw [hc]
        rfl

theorem row?_outer_merge_left (A B : DF) (k : String) (r : Row) (h : A.row? k = some r) :
    (outer_merge A B).row? k = some (r ++ (B.row? k).getD []) := by
  unfold DF.row? at h
  cases hf : A.rows.find? (fun p => p.1 == k) with
  | none => rw [hf] at h; cases h
  | some q =>
    rw [hf] at h
    have hq2 : q.2 = r := Option.some.inj h
    have hbe := @List.find?_some (String × Row) (fun p => p.1 == k) _ _ hf
    have hk : q.1 = k := eq_of_beq hbe
    show ((outer_merge A B).rows.find? (fun p => p.1 == k)).map (fun p => p.2)
      = some (r ++ (B.row? k).getD [])
    unfold outer_merge
    simp only
    rw [List.find?_append, find?_map_merge_row_ext A.rows B k, hf]
    simp [merge_row_ext, hk, hq2]

theorem row?_outer_merge_right (A B : DF) (k : String) (h : A.hasKey k = false) :
    (outer_merge A B).row? k = B.row? k := by
  have hfA : A.rows.find? (fun p => p.1 == k) = none := by
    rw [List.find?_eq_none]
    intro x hx
    have := List.any_eq_false.mp h
    exact fun hpx => (this x hx) hpx
  show ((outer_merge A B).rows.find? (fun p => p.1 == k)).map (fun p => p.2) = B.row? k
  unfold outer_merge
  simp only
  rw [List.find?_append, find?_map_merge_row_ext A.rows B k, hfA]
  simp only [Option.map_none', Option.none_or]
  have himp : ∀ x : String × Row, (x.1 == k) = true → (!A.hasKey x.1) = true := by
    intro x hx
    have hk : x.1 = k := eq_of_beq hx
    rw [hk, h]
    rfl
  rw [find?_filter_of_imp B.rows (fun p => p.1 == k) (fun p => !A.hasKey p.1) himp]
  rfl

theorem val_outer_merge_left_only (A B : DF) (k c : String) (r : Row)
    (h : A.row? k = some r) (hB : B.hasKey k = false) :
    (outer_merge A B).val k c = row_val r c := by
  unfold DF.val
  rw [row?_outer_merge_left A B k r h]
  have : B.row? k = none := by
    cases hr : B.row? k with
    | none => rfl
    | some s =>
      have := (hasKey_iff_row? B k).mpr ⟨s, hr⟩
      rw [hB] at this
      cases this
  rw [this]
  simp

theorem val_outer_merge_right_only (A B : DF) (k c : String)
    (hA : A.hasKey k = false) : (outer_merge A B).val k c = B.val k c := by
  unfold DF.val
  rw [row?_outer_merge_right A B k hA]

theorem select_val (df : DF) (cs : List String) (k c : String) :
    (df.select cs).val k c = df.val k c := rfl

theorem select_hasKey (df : DF) (cs : List String) (k : String) :
    (df.select cs).hasKey k = df.hasKey k := rfl

/-! Lemmas about the output column order of get_census_fields. -/

theorem add_fieldname_of_not_mem_true (order : List String) (n : String)
    (h : n ∉ order) : add_fieldname order n true = n :: order := by
  have hc : order.contains n = false := (contains_false_iff order n).mpr h
  simp [add_fieldname, hc]
  exact h

theorem append_ratio_ne_geoid (s : String) : s ++ "_ratio" ≠ "GEOID" := by
  intro h
  have hlen := congrArg String.length h
  rw [String.length_append] at hlen
  have h6 : ("_ratio" : String).length = 6 := by decide
  have h5 : ("GEOID" : String).length = 5 := by decide
  omega

theorem append_ratio_ne_name (s : String) : s ++ "_ratio" ≠ "NAME" := by
  intro h
  have hlen := congrArg String.length h
  rw [String.length_append] at hlen
  have h6 : ("_ratio" : String).length = 6 := by decide
  have h4 : ("NAME" : String).length = 4 := by decide
  omega

theorem append_ratio_ne_self (s : String) : s ++ "_ratio" ≠ s := by
  intro h
  have hlen := congrArg String.length h
  rw [String.length_append] at hlen
  have h6 : ("_ratio" : String).length = 6 := by decide
  omega

theorem basic_col_step_order (df_raw : DF) (acc : DF × List String) (col : String)
    (h : col ∈ acc.2 ∨ df_raw.cols.contains col = false) :
    (basic_col_step df_raw acc col).2 = acc.2 := by
  unfold basic_col_step
  split
  · next hcond =>
    rcases h with h1 | h1
    · simp [add_fieldname_of_mem _ _ _ h1]
    · rw [h1] at hcond
      simp at hcond
  · rfl

theorem basic_col_step_order_mono (df_raw : DF) (acc : DF × List String) (col x : String)
    (h : x ∈ acc.2) : x ∈ (basic_col_step df_raw acc col).2 := by
  unfold basic_col_step
  split
  · exact mem_add_fieldname_of_mem _ _ _ _ h
  · exact h

theorem proc_step_order_eq (raw : String → Nat → DF) (cr : Bool) (st : ProcState)
    (f : RField) :
    (proc_step raw cr st f).order =
      (if cr && universe_concrete f.universe_code then
        add_fieldname (basic_col_step (raw f.source f.year)
          (basic_col_step (raw f.source f.year)
            ((afind st.procs (f.source, f.year)).getD (empty_proc (raw f.source f.year)),
             add_fieldname st.order f.name false) "NAME") "GEOID").2 (f.name ++ "_ratio") false
      else
        (basic_col_step (raw f.source f.year)
          (basic_col_step (raw f.source f.year)
            ((afind st.procs (f.source, f.year)).getD (empty_proc (raw f.source f.year)),
             add_fieldname st.order f.name false) "NAME") "GEOID").2) := by
  by_cases h : (cr && universe_concrete f.universe_code) = true <;>
    simp only [proc_step, h, if_true, if_false, Bool.false_eq_true]

theorem proc_step_order_of_basics (raw : String → Nat → DF) (cr : Bool) (st : ProcState)
    (f : RField) (hg : "GEOID" ∈ st.order)
    (hn : "NAME" ∈ st.order ∨ (raw f.source f.year).cols.contains "NAME" = false) :
    (proc_step raw cr st f).order = append_seq st.order (field_cols cr f) := by
  have horder0 : ∀ x, x ∈ st.order → x ∈ add_fieldname st.order f.name false :=
    fun x hx => mem_add_fieldname_of_mem _ _ _ _ hx
  have hchain : ∀ d : DF,
      (basic_col_step (raw f.source f.year)
        (basic_col_step (raw f.source f.year) (d, add_fieldname st.order f.name false) "NAME")
          "GEOID").2 = add_fieldname st.order f.name false := by
    intro d
    have hstep1 : (basic_col_step (raw f.source f.year)
        (d, add_fieldname st.order f.name false) "NAME").2
        = add_fieldname st.order f.name false := by
      apply basic_col_step_order
      rcases hn with h1 | h1
      · exact Or.inl (horder0 _ h1)
      · exact Or.inr h1
    rw [basic_col_step_order, hstep1]
    rw [hstep1]
    exact Or.inl (horder0 _ hg)
  rw [proc_step_order_eq]
  by_cases hcr : (cr && universe_concrete f.universe_code) = true
  · rw [if_pos hcr, hchain]
    unfold field_cols
    rw [if_pos hcr, append_seq_cons, append_seq_cons, append_seq_nil]
  · rw [if_neg hcr, hchain]
    unfold field_cols
    rw [if_neg hcr, append_seq_cons, append_seq_nil]

theorem process_fold_order (raw : String → Nat → DF) (cr : Bool) (fs : List RField)
    (st : ProcState) (hg : "GEOID" ∈ st.order)
    (hn : ∀ f ∈ fs, "NAME" ∈ st.order ∨ (raw f.source f.year).cols.contains "NAME" = false) :
    (fs.foldl (proc_step raw cr) st).order = append_seq st.order (col_seq cr fs) := by
  induction fs generalizing st with
  | nil => rfl
  | cons f rest ih =>
    rw [List.foldl_cons]
    have h1 := proc_step_order_of_basics raw cr st f hg (hn f (List.mem_cons_self _ _))
    have hcs : col_seq cr (f :: rest) = field_cols cr f ++ col_seq cr rest := by
      simp [col_seq]
    rw [hcs, append_seq_append, ← h1]
    apply ih
    · rw [h1]
      exact mem_append_seq_of_mem _ _ _ hg
    · intro g hg2
      rcases hn g (List.mem_cons_of_mem _ hg2) with h2 | h2
      · left
        rw [h1]
        exact mem_append_seq_of_mem _ _ _ h2
      · right
        exact h2

theorem proc_step_order_first (raw : String → Nat → DF) (cr : Bool) (f : RField) (nm : Bool)
    (hG : (raw f.source f.year).cols.contains "GEOID" = true)
    (hN : (raw f.source f.year).cols.contains "NAME" = nm)
    (hf1 : f.name ≠ "GEOID") (hf2 : f.name ≠ "NAME") :
    (proc_step raw cr { procs := [], order := [] } f).order = id_cols nm ++ field_cols cr f := by
  have hr1 := append_ratio_ne_geoid f.name
  have hr2 := append_ratio_ne_name f.name
  have hrn := append_ratio_ne_self f.name
  have horder0 : add_fieldname ([] : List String) f.name false = [f.name] := by
    simp [add_fieldname]
  have hget : (afind ([] : List ((String × Nat) × DF)) (f.source, f.year)).getD
      (empty_proc (raw f.source f.year)) = empty_proc (raw f.source f.year) := rfl
  -- the NAME and GEOID copy steps from the fresh working table
  have hchain : (basic_col_step (raw f.source f.year)
      (basic_col_step (raw f.source f.year)
        (empty_proc (raw f.source f.year), [f.name]) "NAME") "GEOID").2
      = id_cols nm ++ [f.name] := by
    cases nm with
    | true =>
      have hs1 : basic_col_step (raw f.source f.year)
          (empty_proc (raw f.source f.year), [f.name]) "NAME"
          = ((empty_proc (raw f.source f.year)).setCol "NAME"
              (fun k => (raw f.source f.year).val k "NAME"), ["NAME", f.name]) := by
        unfold basic_col_step
        rw [if_pos]
        · rw [add_fieldname_of_not_mem_true]
          intro hmem
          exact hf2 (List.mem_singleton.mp hmem).symm
        · rw [hN]
          rfl
      rw [hs1]
      have hcols : ((empty_proc (raw f.source f.year)).setCol "NAME"
          (fun k => (raw f.source f.year).val k "NAME")).cols = ["NAME"] := by
        simp [DF.setCol, empty_proc]
      unfold basic_col_step
      rw [if_pos]
      · rw [add_fieldname_of_not_mem_true]
        · rfl
        · intro hmem
          rcases List.mem_cons.mp hmem with h1 | h1
          · exact absurd h1.symm (by decide)
          · exact hf1 (List.mem_singleton.mp h1).symm
      · rw [hG, hcols]
        rfl
    | false =>
      have hs1 : basic_col_step (raw f.source f.year)
          (empty_proc (raw f.source f.year), [f.name]) "NAME"
          = (empty_proc (raw f.source f.year), [f.name]) := by
        unfold basic_col_step
        rw [if_neg]
        rw [hN]
        simp
      rw [hs1]
      unfold basic_col_step
      rw [if_pos]
      · rw [add_fieldname_of_not_mem_true]
        · rfl
        · intro hmem
          exact hf1 (List.mem_singleton.mp hmem).symm
      · rw [hG]
        rfl
  rw [proc_step_order_eq]
  by_cases hcr : (cr && universe_concrete f.universe_code) = true
  · rw [if_pos hcr, horder0, hget, hchain]
    have hnr : (f.name ++ "_ratio") ∉ id_cols nm ++ [f.name] := by
      intro hmem
      rcases List.mem_append.mp hmem with h1 | h1
      · cases nm with
        | true =>
          rcases List.mem_cons.mp h1 with h2 | h2
          · exact hr1 h2
          · exact hr2 (List.mem_singleton.mp h2)
        | false => exact hr1 (List.mem_singleton.mp h1)
      · exact hrn (List.mem_singleton.mp h1)
    rw [add_fieldname_of_not_mem_false _ _ hnr]
    unfold field_cols
    rw [if_pos hcr]
    simp
  · rw [if_neg hcr, horder0, hget, hchain]
    unfold field_cols
    rw [if_neg hcr]

theorem proc_step_procs_ne_nil (raw : String → Nat → DF) (cr : Bool) (st : ProcState)
    (f : RField) : (proc_step raw cr st f).procs ≠ [] := by
  by_cases h : (cr && universe_concrete f.universe_code) = true <;>
    simp only [proc_step, h, if_true, if_false, Bool.false_eq_true] <;>
    exact aset_ne_nil _ _ _

theorem foldl_proc_step_procs_ne_nil (raw : String → Nat → DF) (cr : Bool) :
    ∀ (fs : List RField) (st : ProcState), st.procs ≠ [] →
    (fs.foldl (proc_step raw cr) st).procs ≠ [] := by
  intro fs
  induction fs with
  | nil => intro st h; exact h
  | cons f rest ih =>
    intro st _
    rw [List.foldl_cons]
    exact ih _ (proc_step_procs_ne_nil raw cr st f)

theorem process_fields_procs_ne_nil (raw : String → Nat → DF) (cr : Bool) (f : RField)
    (rest : List RField) : (process_fields raw cr (f :: rest)).procs ≠ [] := by
  unfold process_fields
  rw [List.foldl_cons]
  exact foldl_proc_step_procs_ne_nil raw cr rest _ (proc_step_procs_ne_nil raw cr _ f)

theorem merge_foldl_some (ps : List ((String × Nat) × DF)) (a : DF) :
    ∃ m, ps.foldl merge_step (some a) = some m := by
  induction ps generalizing a with
  | nil => exact ⟨a, rfl⟩
  | cons p rest ih =>
    rw [List.foldl_cons]
    exact ih (outer_merge a p.2)

theorem merge_procs_some (ps : List ((String × Nat) × DF)) (h : ps ≠ []) :
    ∃ m, merge_procs ps = some m := by
  cases ps with
  | nil => exact absurd rfl h
  | cons p rest =>
    unfold merge_procs
    rw [List.foldl_cons]
    exact merge_foldl_some rest p.2

theorem get_census_fields_shape (categories : Config) (raw : String → Nat → DF) (cr : Bool)
    (fs : List RField) (df : DF)
    (hfs : resolved_fields categories = Except.ok fs)
    (hok : get_census_fields categories raw cr = Except.ok df) :
    ∃ m, merge_procs (process_fields raw cr fs).procs = some m ∧
      df = m.select (process_fields raw cr fs).order := by
  unfold get_census_fields at hok
  rw [hfs] at hok
  dsimp only at hok
  cases hm : merge_procs (process_fields raw cr fs).procs with
  | none =>
    rw [hm] at hok
    cases hok
  | some m =>
    rw [hm] at hok
    exact ⟨m, rfl, (Except.ok.inj hok).symm⟩

theorem get_census_fields_fs_ne_nil (categories : Config) (raw : String → Nat → DF) (cr : Bool)
    (fs : List RField) (df : DF)
    (hfs : resolved_fields categories = Except.ok fs)
    (hok : get_census_fields categories raw cr = Except.ok df) : fs ≠ [] := by
  intro hnil
  subst hnil
  unfold get_census_fields at hok
  rw [hfs] at hok
  dsimp only at hok
  cases hok

theorem process_fields_order (raw : String → Nat → DF) (cr : Bool) (fs : List RField)
    (nm : Bool)
    (hraw : ∀ s y, (raw s y).cols.contains "GEOID" = true ∧ (raw s y).cols.contains "NAME" = nm)
    (hg : "GEOID" ∉ col_seq cr fs) (hn : "NAME" ∉ col_seq cr fs)
    (hnd : (col_seq cr fs).Nodup) (hne : fs ≠ []) :
    (process_fields raw cr fs).order = id_cols nm ++ col_seq cr fs := by
  cases fs with
  | nil => exact absurd rfl hne
  | cons f rest =>
    unfold process_fields
    rw [List.foldl_cons]
    have hcs : col_seq cr (f :: rest) = field_cols cr f ++ col_seq cr rest := by
      simp [col_seq]
    have hfc : f.name ∈ field_cols cr f := by
      unfold field_cols
      exact List.mem_cons_self _ _
    have hf_mem : f.name ∈ col_seq cr (f :: rest) := by
      rw [hcs]
      exact List.mem_append_left _ hfc
    have hf1 : f.name ≠ "GEOID" := fun e => hg (e ▸ hf_mem)
    have hf2 : f.name ≠ "NAME" := fun e => hn (e ▸ hf_mem)
    have h1 := proc_step_order_first raw cr f nm (hraw f.source f.year).1
      (hraw f.source f.year).2 hf1 hf2
    have hGmem : "GEOID" ∈ (proc_step raw cr { procs := [], order := [] } f).order := by
      rw [h1]
      apply List.mem_append_left
      unfold id_cols
      cases nm <;> simp
    have h2 := process_fold_order raw cr rest (proc_step raw cr { procs := [], order := [] } f)
      hGmem
      (by
        intro g _
        cases nm with
        | true =>
          left
          rw [h1]
          apply List.mem_append_left
          simp [id_cols]
        | false =>
          right
          exact (hraw g.source g.year).2)
    rw [h2, h1]
    rw [hcs] at hnd
    rcases List.nodup_append.mp hnd with ⟨_, hnd2, hdisj⟩
    rw [append_seq_eq_append]
    · rw [hcs, List.append_assoc]
    · intro x hx hmem
      rcases List.mem_append.mp hmem with hm | hm
      · have hxfull : x ∈ col_seq cr (f :: rest) := by
          rw [hcs]
          exact List.mem_append_right _ hx
        unfold id_cols at hm
        cases nm with
        | true =>
          rcases List.mem_cons.mp hm with h3 | h3
          · exact hg (h3 ▸ hxfull)
          · exact hn ((List.mem_singleton.mp h3) ▸ hxfull)
        | false => exact hg ((List.mem_singleton.mp hm) ▸ hxfull)
      · exact hdisj hm hx
    · exact hnd2

theorem mem_col_seq (cr : Bool) (fs : List RField) (c : String) :
    c ∈ col_seq cr fs ↔ ∃ f ∈ fs, c = f.name ∨
      ((cr && universe_concrete f.universe_code) = true ∧ c = f.name ++ "_ratio") := by
  unfold col_seq
  rw [List.mem_flatten]
  constructor
  · rintro ⟨l, hl, hc⟩
    rcases List.mem_map.mp hl with ⟨f, hf, rfl⟩
    refine ⟨f, hf, ?_⟩
    unfold field_cols at hc
    rcases List.mem_cons.mp hc with h1 | h1
    · exact Or.inl h1
    · by_cases hcr : (cr && universe_concrete f.universe_code) = true
      · rw [if_pos hcr] at h1
        exact Or.inr ⟨hcr, List.mem_singleton.mp h1⟩
      · rw [if_neg hcr] at h1
        exact absurd h1 (List.not_mem_nil c)
  · rintro ⟨f, hf, h1 | ⟨hcr, h1⟩⟩
    · refine ⟨field_cols cr f, List.mem_map_of_mem _ hf, ?_⟩
      unfold field_cols
      rw [h1]
      exact List.mem_cons_self _ _
    · refine ⟨field_cols cr f, List.mem_map_of_mem _ hf, ?_⟩
      unfold field_cols
      rw [if_pos hcr, h1]
      exact List.mem_cons_of_mem _ (List.mem_singleton.mpr rfl)

/-! The claims. -/

/-- C4: in the table returned by get_census_fields, the GEOID column comes
first and the NAME column, when present, comes immediately after it; the
remaining columns are exactly the field sum columns in first-introduced
order with each ratio column placed contiguously right after its sum
column (col_seq is that interleaved sequence and id_cols the identifier
prefix); and no column name repeats. Stated for any oracle whose raw
tables always carry GEOID and carry NAME uniformly, and for resolved
fields whose generated column names avoid GEOID and NAME and are free of
collisions, which the normalizer produces for well-formed configurations. -/
theorem claim4_theorem (categories : Config) (raw : String → Nat → DF) (cr : Bool)
    (fs : List RField) (nm : Bool) (df : DF)
    (hfs : resolved_fields categories = Except.ok fs)
    (hraw : ∀ s y, (raw s y).cols.contains "GEOID" = true ∧
      (raw s y).cols.contains "NAME" = nm)
    (hg : "GEOID" ∉ col_seq cr fs) (hn : "NAME" ∉ col_seq cr fs)
    (hnd : (col_seq cr fs).Nodup)
    (hok : get_census_fields categories raw cr = Except.ok df) :
    df.cols = id_cols nm ++ col_seq cr fs ∧ df.cols.Nodup := by
  have hne := get_census_fields_fs_ne_nil categories raw cr fs df hfs hok
  rcases get_census_fields_shape categories raw cr fs df hfs hok with ⟨m, _, hdf⟩
  have horder := process_fields_order raw cr fs nm hraw hg hn hnd hne
  subst hdf
  have hcols : (m.select (process_fields raw cr fs).order).cols
      = (process_fields raw cr fs).order := rfl
  constructor
  · rw [hcols, horder]
  · rw [hcols, horder, List.nodup_append]
    refine ⟨?_, hnd, ?_⟩
    · unfold id_cols
      cases nm <;> simp
    · intro x hx
      unfold id_cols at hx
      cases nm with
      | true =>
        rcases List.mem_cons.mp hx with h1 | h1
        · exact h1 ▸ hg
        · exact (List.mem_singleton.mp h1) ▸ hn
      | false => exact (List.mem_singleton.mp hx) ▸ hg

/-- Witness for C4 on the concrete two-partition fixture. -/
theorem claim4_witness :
    dfW.cols = id_cols false ++ col_seq true fsW ∧ dfW.cols.Nodup :=
  claim4_theorem cfgW rawOracleW true fsW false dfW rfl
    (fun _ _ => ⟨rfl, rfl⟩) (by decide) (by decide) (by decide) rfl

/-- C10: the table returned by get_census_fields has exactly the registered
output columns: GEOID, NAME when present, one sum column per resolved
field and the ratio columns of ratio-eligible fields; and a raw requested
variable code, being distinct from all registered names, is never a
column. -/
theorem claim10_theorem (categories : Config) (raw : String → Nat → DF) (cr : Bool)
    (fs : List RField) (nm : Bool) (df : DF)
    (hfs : resolved_fields categories = Except.ok fs)
    (hraw : ∀ s y, (raw s y).cols.contains "GEOID" = true ∧
      (raw s y).cols.contains "NAME" = nm)
    (hg : "GEOID" ∉ col_seq cr fs) (hn : "NAME" ∉ col_seq cr fs)
    (hnd : (col_seq cr fs).Nodup)
    (hok : get_census_fields categories raw cr = Except.ok df) :
    (∀ c, c ∈ df.cols ↔ (c = "GEOID" ∨ (nm = true ∧ c = "NAME") ∨
      ∃ f ∈ fs, c = f.name ∨
        ((cr && universe_concrete f.universe_code) = true ∧ c = f.name ++ "_ratio"))) ∧
    (∀ v, (∃ f ∈ fs, v ∈ f.sum_codes ∨ f.universe_code = some v) →
      v ≠ "GEOID" → v ≠ "NAME" →
      (∀ f ∈ fs, v ≠ f.name ∧ v ≠ f.name ++ "_ratio") → v ∉ df.cols) := by
  have hne := get_census_fields_fs_ne_nil categories raw cr fs df hfs hok
  rcases get_census_fields_shape categories raw cr fs df hfs hok with ⟨m, _, hdf⟩
  have horder := process_fields_order raw cr fs nm hraw hg hn hnd hne
  subst hdf
  have hcols : (m.select (process_fields raw cr fs).order).cols
      = id_cols nm ++ col_seq cr fs := horder
  have hmem : ∀ c, c ∈ (m.select (process_fields raw cr fs).order).cols ↔
      (c = "GEOID" ∨ (nm = true ∧ c = "NAME") ∨
        ∃ f ∈ fs, c = f.name ∨
          ((cr && universe_concrete f.universe_code) = true ∧ c = f.name ++ "_ratio")) := by
    intro c
    rw [hcols, List.mem_append, mem_col_seq]
    constructor
    · rintro (h1 | h1)
      · unfold id_cols at h1
        cases nm with
        | true =>
          rcases List.mem_cons.mp h1 with h2 | h2
          · exact Or.inl h2
          · exact Or.inr (Or.inl ⟨rfl, List.mem_singleton.mp h2⟩)
        | false => exact Or.inl (List.mem_singleton.mp h1)
      · exact Or.inr (Or.inr h1)
    · rintro (h1 | ⟨hnm, h1⟩ | h1)
      · left
        unfold id_cols
        cases nm with
        | true => exact h1 ▸ List.mem_cons_self _ _
        | false => exact h1 ▸ List.mem_singleton.mpr rfl
      · left
        subst hnm
        unfold id_cols
        exact h1 ▸ List.mem_cons_of_mem _ (List.mem_singleton.mpr rfl)
      · exact Or.inr h1
  refine ⟨hmem, ?_⟩
  intro v _ hvg hvn hno hmemv
  rcases (hmem v).mp hmemv with h1 | ⟨_, h1⟩ | ⟨f, hf, h1 | ⟨_, h1⟩⟩
  · exact hvg h1
  · exact hvn h1
  · exact (hno f hf).1 h1
  · exact (hno f hf).2 h1

/-- Witness for C10 on the concrete fixture: the requested variable code
C17002_002E is not a column of the output. -/
theorem claim10_witness :
    ("income_median" ∈ dfW.cols ↔ ("income_median" = "GEOID" ∨
      (false = true ∧ "income_median" = "NAME") ∨
      ∃ f ∈ fsW, "income_median" = f.name ∨
        ((true && universe_concrete f.universe_code) = true ∧
          "income_median" = f.name ++ "_ratio"))) ∧
    "C17002_002E" ∉ dfW.cols := by
  have h := claim10_theorem cfgW rawOracleW true fsW false dfW rfl
    (fun _ _ => ⟨rfl, rfl⟩) (by decide) (by decide) (by decide) rfl
  exact ⟨h.1 "income_median",
    h.2 "C17002_002E" (by decide) (by decide) (by decide) (by decide)⟩

/-! Lemmas about strings and the E-suffix convention. -/

theorem ends_with_e_append (s : String) : ends_with_e (s ++ "E") = true := by
  unfold ends_with_e
  rw [String.data_append]
  have he : ("E" : String).data = ['E'] := rfl
  rw [he, List.getLast?_concat]
  rfl

theorem append_e_not_sentinel (s : String) :
    ¬(s ++ "E" = "DENSITY_ONLY" ∨ s ++ "E" = "NO_DENSITY_OR_RATIO") := by
  rintro (h | h)
  · have := ends_with_e_append s
    rw [h] at this
    exact absurd this (by decide)
  · have := ends_with_e_append s
    rw [h] at this
    exact absurd this (by decide)

theorem starts_with_dec_not_acs (s : String) (h : starts_with s "dec" = true) :
    starts_with s "acs" = false := by
  unfold starts_with at h ⊢
  have hdec : ("dec" : String).data = ['d', 'e', 'c'] := rfl
  have hacs : ("acs" : String).data = ['a', 'c', 's'] := rfl
  rw [hdec] at h
  rw [hacs]
  cases hl : s.data with
  | nil =>
    rw [hl] at h
    exact absurd h (by decide)
  | cons a as =>
    rw [hl] at h
    have h1 : ('d' == a) = true := by
      simp only [List.isPrefixOf, Bool.and_eq_true] at h
      exact h.1
    have ha : a = 'd' := (eq_of_beq h1).symm
    subst ha
    simp [List.isPrefixOf]

/-- C7: the estimate-letter convention. The letter E is appended exactly
once to a code: add_e is idempotent, the sentinels DENSITY_ONLY and
NO_DENSITY_OR_RATIO are never modified, a code already ending in E is
unchanged, any other code gets E appended; the transformation is applied
to the numerator and universe codes of a field exactly when its canonical
source starts with acs, so decennial (dec prefixed) fields are never
modified. -/
theorem claim7_theorem :
    (∀ c, add_e (add_e c) = add_e c) ∧
    add_e "DENSITY_ONLY" = "DENSITY_ONLY" ∧
    add_e "NO_DENSITY_OR_RATIO" = "NO_DENSITY_OR_RATIO" ∧
    (∀ c, ends_with_e c = true → add_e c = c) ∧
    (∀ c, c ≠ "DENSITY_ONLY" → c ≠ "NO_DENSITY_OR_RATIO" → ends_with_e c = false →
      add_e c = c ++ "E") ∧
    (∀ f : RField, starts_with f.source "acs" = true →
      apply_add_e f = { f with sum_codes := f.sum_codes.map add_e,
                               universe_code := add_e_opt f.universe_code }) ∧
    (∀ f : RField, starts_with f.source "acs" = false → apply_add_e f = f) ∧
    (∀ f : RField, starts_with f.source "dec" = true → apply_add_e f = f) := by
  have hplain : ∀ c, c ≠ "DENSITY_ONLY" → c ≠ "NO_DENSITY_OR_RATIO" →
      ends_with_e c = false → add_e c = c ++ "E" := by
    intro c h1 h2 h3
    unfold add_e
    rw [if_neg (by rintro (h | h) <;> [exact h1 h; exact h2 h]), if_neg (by simp [h3])]
  have hkeep : ∀ c, ends_with_e c = true → add_e c = c := by
    intro c h
    unfold add_e
    by_cases h1 : c = "DENSITY_ONLY" ∨ c = "NO_DENSITY_OR_RATIO"
    · rw [if_pos h1]
    · rw [if_neg h1, if_pos h]
  refine ⟨?_, rfl, rfl, hkeep, hplain, ?_, ?_, ?_⟩
  · intro c
    by_cases h1 : c = "DENSITY_ONLY" ∨ c = "NO_DENSITY_OR_RATIO"
    · have hc : add_e c = c := by
        unfold add_e
        rw [if_pos h1]
      rw [hc, hc]
    · by_cases h2 : ends_with_e c = true
      · rw [hkeep c h2, hkeep c h2]
      · have h1a : c ≠ "DENSITY_ONLY" := fun e => h1 (Or.inl e)
        have h1b : c ≠ "NO_DENSITY_OR_RATIO" := fun e => h1 (Or.inr e)
        rw [hplain c h1a h1b (by simpa using h2)]
        rw [hkeep _ (ends_with_e_append c)]
  · intro f h
    unfold apply_add_e
    rw [if_pos h]
  · intro f h
    unfold apply_add_e
    rw [if_neg (by simp [h])]
  · intro f h
    unfold apply_add_e
    rw [if_neg (by simp [starts_with_dec_not_acs f.source h])]

/-- Witness for C7 on concrete codes and fields. -/
theorem claim7_witness :
    add_e (add_e "C17002_002") = add_e "C17002_002" ∧
    add_e "C17002_002" = "C17002_002" ++ "E" ∧
    add_e "DENSITY_ONLY" = "DENSITY_ONLY" ∧
    apply_add_e fAcsW = { fAcsW with sum_codes := fAcsW.sum_codes.map add_e,
                                     universe_code := add_e_opt fAcsW.universe_code } ∧
    apply_add_e fDecW = fDecW :=
  ⟨claim7_theorem.1 "C17002_002",
   claim7_theorem.2.2.2.2.1 "C17002_002" (by decide) (by decide) (by decide),
   claim7_theorem.2.1,
   claim7_theorem.2.2.2.2.2.1 fAcsW (by decide),
   claim7_theorem.2.2.2.2.2.2.2 fDecW (by decide)⟩

/-- C3 counterexample: in cfg3W the category has an explicit per-field
universe entry and no default entry. The claim says the resolved universe
code of that field is the per-field entry, but the code evaluates the
fallback argument fields_universe[default] of dict.get eagerly, so
resolution raises a KeyError instead, before any query: the whole
get_census_fields call fails with that error. -/
theorem claim3_counterexample :
    format_categories_dict_core cfg3W = Except.ok cfg3FW ∧
    ((afind cfg3FW "cat").map (fun c => afind c.fields_universe "cat_f"))
      = some (some (some "X0")) ∧
    resolved_fields cfg3W = Except.error "KeyError: default" ∧
    get_census_fields cfg3W rawOracleW true = Except.error "KeyError: default" := by
  refine ⟨rfl, rfl, rfl, rfl⟩

/-- C3 amended: when the category carries a default universe entry, the
resolved universe code of a field is the explicit per-field entry when one
exists and the default entry otherwise; when the default entry is absent,
resolution fails fast with a KeyError regardless of any per-field entry
(the fallback argument of dict.get is evaluated eagerly); and a resolution
error makes get_census_fields fail with that same error before any
external query: the result does not depend on the query oracle at all. -/
theorem claim3_theorem :
    (∀ (fu : List (String × Option String)) (fname : String),
      afind fu "default" = none →
      resolve_universe fu fname = Except.error "KeyError: default") ∧
    (∀ (fu : List (String × Option String)) (fname : String) (d : Option String),
      afind fu "default" = some d → afind fu fname = none →
      resolve_universe fu fname = Except.ok d) ∧
    (∀ (fu : List (String × Option String)) (fname : String) (d u : Option String),
      afind fu "default" = some d → afind fu fname = some u →
      resolve_universe fu fname = Except.ok u) ∧
    (∀ (categories : Config) (raw1 raw2 : String → Nat → DF) (cr : Bool) (e : String),
      resolved_fields categories = Except.error e →
      get_census_fields categories raw1 cr = Except.error e ∧
      get_census_fields categories raw2 cr = Except.error e) := by
  refine ⟨?_, ?_, ?_, ?_⟩
  · intro fu fname h
    unfold resolve_universe
    rw [h]
  · intro fu fname d hd hf
    unfold resolve_universe
    rw [hd, hf]
    rfl
  · intro fu fname d u hd hf
    unfold resolve_universe
    rw [hd, hf]
    rfl
  · intro categories raw1 raw2 cr e h
    constructor <;> (unfold get_census_fields; rw [h])

/-- Witness for C3 amended on concrete universe mappings and the broken
fixture configuration. -/
theorem claim3_witness :
    resolve_universe [("f", some "X0")] "f" = Except.error "KeyError: default" ∧
    resolve_universe [("default", some "D"), ("f", some "U")] "g" = Except.ok (some "D") ∧
    resolve_universe [("default", some "D"), ("f", some "U")] "f" = Except.ok (some "U") ∧
    get_census_fields cfg3W rawOracleW true = Except.error "KeyError: default" :=
  ⟨claim3_theorem.1 [("f", some "X0")] "f" rfl,
   claim3_theorem.2.1 [("default", some "D"), ("f", some "U")] "g" (some "D") rfl rfl,
   claim3_theorem.2.2.1 [("default", some "D"), ("f", some "U")] "f" (some "D") (some "U")
     rfl rfl,
   (claim3_theorem.2.2.2 cfg3W rawOracleW rawOracleW true "KeyError: default" rfl).1⟩

/-- C8 counterexample: the claim says an unrecognized source identifier or
a flattened-name collision is a configuration error that terminates the
run before any query. In the code neither happens: the source foobar is
passed through unchanged with only a stderr warning and the run completes,
and the two categories of cfg8colW flatten to the same qualified name
a_b_c with no error, the run proceeding silently. -/
theorem claim8_counterexample :
    source_to_api_dir "foobar" = "foobar" ∧
    (get_census_fields cfg8srcW rawOracleW true).isOk = true ∧
    ((resolved_fields cfg8colW).toOption.getD []).map (fun f => f.name)
      = ["a_b_c", "a_b_c"] ∧
    (get_census_fields cfg8colW rawOracleW true).isOk = true := by
  refine ⟨rfl, rfl, rfl, rfl⟩

/-- C8 amended: an unrecognized source identifier, one that starts with
neither acs nor dec and is not dhc, is passed through unchanged with only
a warning and the run is not terminated; a flattened-name collision is not
detected, so two categories can produce the same qualified field name and
the run silently proceeds. -/
theorem claim8_theorem :
    (∀ s, starts_with s "acs" = false → starts_with s "dec" = false → s ≠ "dhc" →
      source_to_api_dir s = s) ∧
    (get_census_fields cfg8srcW rawOracleW true).isOk = true ∧
    ((resolved_fields cfg8colW).toOption.getD []).map (fun f => f.name)
      = ["a_b_c", "a_b_c"] ∧
    (get_census_fields cfg8colW rawOracleW true).isOk = true := by
  refine ⟨?_, rfl, rfl, rfl⟩
  intro s h1 h2 h3
  unfold source_to_api_dir
  rw [if_neg (by simp [h1]), if_neg (by simp [h2]), if_neg h3]

/-- Witness for C8 amended on the concrete unrecognized source. -/
theorem claim8_witness : source_to_api_dir "foobar" = "foobar" :=
  claim8_theorem.1 "foobar" (by decide) (by decide) (by decide)

/-- C9: format_categories_dict as invoked with inplace=False is a pure
function of its input. The second component of the embedding is the
callers configuration after the call: it is unchanged, because the code
deep-copies the argument and mutates only the copy; hence normalizing the
same caller configuration twice yields identical results, the second call
seeing exactly the same input as the first. -/
theorem claim9_theorem (c : Config) :
    (format_categories_dict c).2 = c ∧
    format_categories_dict ((format_categories_dict c).2) = format_categories_dict c :=
  ⟨rfl, rfl⟩

/-! Lemmas about the formatted field names. -/

theorem years_as_prefix_false_iff (cats : Config) :
    years_as_prefix cats = false ↔ ∀ p ∈ years_by_source cats, p.2.length ≤ 1 := by
  unfold years_as_prefix
  rw [List.any_eq_false]
  constructor <;> intro h p hp
  · have := h p hp
    simpa [Nat.not_lt] using this
  · have := h p hp
    simpa [Nat.not_lt] using this

theorem years_as_prefix_true_iff (cats : Config) :
    years_as_prefix cats = true ↔ ∃ p ∈ years_by_source cats, 1 < p.2.length := by
  unfold years_as_prefix
  rw [List.any_eq_true]
  constructor
  · rintro ⟨p, hp, h⟩
    exact ⟨p, hp, by simpa using h⟩
  · rintro ⟨p, hp, h⟩
    exact ⟨p, hp, by simpa using h⟩

theorem mem_fst_year_fold (fu : List (String × Option String)) (yp : Bool) (n fn : String)
    (codes : List String) (years : List Nat)
    (acc : List (String × List String) × List (String × Option String))
    (q : String × List String)
    (hq : q ∈ (years.foldl (field_year_step fu yp n fn codes) acc).1) :
    q ∈ acc.1 ∨ ∃ y ∈ years, q = (get_field_name yp n fn y, codes) := by
  induction years generalizing acc with
  | nil => exact Or.inl hq
  | cons y ys ih =>
    rw [List.foldl_cons] at hq
    rcases ih _ hq with h1 | ⟨y2, hy2, h2⟩
    · rcases mem_aset _ _ _ _ h1 with h2 | h2
      · exact Or.inr ⟨y, List.mem_cons_self _ _, h2⟩
      · exact Or.inl h2
    · exact Or.inr ⟨y2, List.mem_cons_of_mem _ hy2, h2⟩

theorem mem_fst_fields_fold (fu : List (String × Option String)) (yp : Bool) (n : String)
    (yearsL : List Nat) (flds : List (String × List String))
    (acc : List (String × List String) × List (String × Option String))
    (q : String × List String)
    (hq : q ∈ (flds.foldl
      (fun acc p => yearsL.foldl (field_year_step fu yp n p.1 p.2) acc) acc).1) :
    q ∈ acc.1 ∨ ∃ fn codes, (fn, codes) ∈ flds ∧
      ∃ y ∈ yearsL, q = (get_field_name yp n fn y, codes) := by
  induction flds generalizing acc with
  | nil => exact Or.inl hq
  | cons p rest ih =>
    rw [List.foldl_cons] at hq
    rcases ih _ hq with h1 | ⟨fn, codes, hfc, hy⟩
    · rcases mem_fst_year_fold fu yp n p.1 p.2 yearsL acc q h1 with h2 | ⟨y, hy, h2⟩
      · exact Or.inl h2
      · exact Or.inr ⟨p.1, p.2, List.mem_cons_self _ _, y, hy, h2⟩
    · exact Or.inr ⟨fn, codes, List.mem_cons_of_mem _ hfc, hy⟩

theorem mem_fields_format_category (yp : Bool) (n : String) (cat : Category)
    (q : String × List String) (hq : q ∈ (format_category_fields yp n cat).fields) :
    ∃ fn codes, (fn, codes) ∈ cat.fields ∧
      ∃ y ∈ years_list cat, q = (get_field_name yp n fn y, codes) := by
  unfold format_category_fields at hq
  rcases mem_fst_fields_fold cat.fields_universe yp n (years_list cat) cat.fields _ q hq
    with h1 | h1
  · exact absurd h1 (List.not_mem_nil q)
  · exact h1

/-- C1: the year-prefix decision is global. If every per-source year set
of the configuration is a singleton, every formatted field name is
category_field; if any source carries more than one distinct year, every
formatted field name of every category, including single-year ones, is
year_category_field. Stated on the output of the normalizer: each
formatted field comes from an original field and a year of its category,
named by the one global convention. -/
theorem claim1_theorem (categories cats1 : Config)
    (h : format_sources_years categories = Except.ok cats1) :
    format_categories_dict_core categories = Except.ok (rename_all cats1) ∧
    ((∀ p ∈ years_by_source cats1, p.2.length ≤ 1) →
      ∀ pc ∈ rename_all cats1, ∀ q ∈ pc.2.fields,
        ∃ p0 ∈ cats1, pc.1 = p0.1 ∧ ∃ fn codes, (fn, codes) ∈ p0.2.fields ∧
          (∃ y ∈ years_list p0.2, True) ∧ q.1 = pc.1 ++ "_" ++ fn ∧ q.2 = codes) ∧
    ((∃ p ∈ years_by_source cats1, 1 < p.2.length) →
      ∀ pc ∈ rename_all cats1, ∀ q ∈ pc.2.fields,
        ∃ p0 ∈ cats1, pc.1 = p0.1 ∧ ∃ fn codes y, (fn, codes) ∈ p0.2.fields ∧
          y ∈ years_list p0.2 ∧ q.1 = toString y ++ "_" ++ pc.1 ++ "_" ++ fn ∧
          q.2 = codes) := by
  refine ⟨?_, ?_, ?_⟩
  · unfold format_categories_dict_core
    rw [h]
  · intro hall pc hpc q hq
    have hyp : years_as_prefix cats1 = false := (years_as_prefix_false_iff cats1).mpr hall
    rcases List.mem_map.mp hpc with ⟨p0, hp0, hpc_eq⟩
    subst hpc_eq
    rcases mem_fields_format_category _ _ _ q hq with ⟨fn, codes, hfc, y, hy, hq_eq⟩
    refine ⟨p0, hp0, rfl, fn, codes, hfc, ⟨y, hy, trivial⟩, ?_, ?_⟩
    · rw [hq_eq]
      unfold get_field_name
      rw [hyp]
      rfl
    · rw [hq_eq]
  · intro hsome pc hpc q hq
    have hyp : years_as_prefix cats1 = true := (years_as_prefix_true_iff cats1).mpr hsome
    rcases List.mem_map.mp hpc with ⟨p0, hp0, hpc_eq⟩
    subst hpc_eq
    rcases mem_fields_format_category _ _ _ q hq with ⟨fn, codes, hfc, y, hy, hq_eq⟩
    refine ⟨p0, hp0, rfl, fn, codes, y, hfc, hy, ?_, ?_⟩
    · rw [hq_eq]
      unfold get_field_name
      rw [hyp]
      rfl
    · rw [hq_eq]

/-- Witness for C1: the first formatted field of the single-year fixture
carries the plain category_field name. -/
theorem claim1_witness :
    ∃ p0 ∈ cats1W, pcW.1 = p0.1 ∧ ∃ fn codes, (fn, codes) ∈ p0.2.fields ∧
      (∃ y ∈ years_list p0.2, True) ∧ qW.1 = pcW.1 ++ "_" ++ fn ∧ qW.2 = codes :=
  (claim1_theorem cfgW cats1W rfl).2.1 (by decide) pcW (by decide) qW (by decide)

/-! Lemmas about the outer merges. -/

theorem merge_foldl_props (ps : List ((String × Nat) × DF)) (a m : DF)
    (h : ps.foldl merge_step (some a) = some m) :
    (∀ k, a.hasKey k = true → m.hasKey k = true) ∧
    (∀ p ∈ ps, ∀ k, p.2.hasKey k = true → m.hasKey k = true) ∧
    (∀ c, c ∈ m.cols ↔ c ∈ a.cols ∨ ∃ p ∈ ps, c ∈ p.2.cols) := by
  induction ps generalizing a with
  | nil =>
    have ham : a = m := Option.some.inj h
    subst ham
    refine ⟨fun k hk => hk, ?_, ?_⟩
    · intro p hp
      exact absurd hp (List.not_mem_nil p)
    · intro c
      simp
  | cons p rest ih =>
    rw [List.foldl_cons] at h
    have hstep : merge_step (some a) p = some (outer_merge a p.2) := rfl
    rw [hstep] at h
    rcases ih (outer_merge a p.2) h with ⟨h1, h2, h3⟩
    refine ⟨?_, ?_, ?_⟩
    · intro k hk
      exact h1 k ((hasKey_outer_merge a p.2 k).mpr (Or.inl hk))
    · intro q hq k hk
      rcases List.mem_cons.mp hq with hq1 | hq1
      · subst hq1
        exact h1 k ((hasKey_outer_merge a q.2 k).mpr (Or.inr hk))
      · exact h2 q hq1 k hk
    · intro c
      rw [h3 c, mem_cols_outer_merge]
      constructor
      · rintro ((hc | hc) | ⟨q, hq, hc⟩)
        · exact Or.inl hc
        · exact Or.inr ⟨p, List.mem_cons_self _ _, hc⟩
        · exact Or.inr ⟨q, List.mem_cons_of_mem _ hq, hc⟩
      · rintro (hc | ⟨q, hq, hc⟩)
        · exact Or.inl (Or.inl hc)
        · rcases List.mem_cons.mp hq with hq1 | hq1
          · subst hq1
            exact Or.inl (Or.inr hc)
          · exact Or.inr ⟨q, hq1, hc⟩

theorem merge_procs_props (ps : List ((String × Nat) × DF)) (m : DF)
    (h : merge_procs ps = some m) :
    (∀ p ∈ ps, ∀ k, p.2.hasKey k = true → m.hasKey k = true) ∧
    (∀ c, c ∈ m.cols ↔ ∃ p ∈ ps, c ∈ p.2.cols) := by
  cases ps with
  | nil => cases h
  | cons p rest =>
    unfold merge_procs at h
    rw [List.foldl_cons] at h
    have hstep : merge_step none p = some p.2 := rfl
    rw [hstep] at h
    rcases merge_foldl_props rest p.2 m h with ⟨h1, h2, h3⟩
    refine ⟨?_, ?_⟩
    · intro q hq k hk
      rcases List.mem_cons.mp hq with hq1 | hq1
      · subst hq1
        exact h1 k hk
      · exact h2 q hq1 k hk
    · intro c
      rw [h3 c]
      constructor
      · rintro (hc | ⟨q, hq, hc⟩)
        · exact ⟨p, List.mem_cons_self _ _, hc⟩
        · exact ⟨q, List.mem_cons_of_mem _ hq, hc⟩
      · rintro ⟨q, hq, hc⟩
        rcases List.mem_cons.mp hq with hq1 | hq1
        · subst hq1
          exact Or.inl hc
        · exact Or.inr ⟨q, hq1, hc⟩

theorem hasKey_of_mem_rows (df : DF) (kr : String × Row) (h : kr ∈ df.rows) :
    df.hasKey kr.1 = true := by
  unfold DF.hasKey
  rw [List.any_eq_true]
  exact ⟨kr, h, by simp⟩

theorem add_density_fst_hasKey (l : List String) :
    ∀ (cols : List String) (acc : DF × List String) (k : String),
    (cols.foldl (density_step l) acc).1.hasKey k = acc.1.hasKey k := by
  intro cols
  induction cols with
  | nil => intro acc k; rfl
  | cons c rest ih =>
    intro acc k
    rw [List.foldl_cons, ih]
    unfold density_step
    by_cases hc : l.contains c = true
    · rw [if_pos hc]
      exact hasKey_setCol _ _ _ _
    · rw [if_neg hc]

theorem density_col_seq_cons (c : String) (rest l : List String) :
    density_col_seq (c :: rest) l
      = (if l.contains c then [c, c ++ "_density"] else [c]) ++ density_col_seq rest l := by
  unfold density_col_seq
  rw [List.map_cons, List.flatten_cons]

theorem add_density_snd (l : List String) :
    ∀ (cols : List String) (acc : DF × List String),
    (cols.foldl (density_step l) acc).2 = acc.2 ++ density_col_seq cols l := by
  intro cols
  induction cols with
  | nil =>
    intro acc
    simp [density_col_seq]
  | cons c rest ih =>
    intro acc
    rw [List.foldl_cons, ih, density_col_seq_cons]
    unfold density_step
    by_cases hc : l.contains c = true
    · rw [if_pos hc, if_pos hc]
      simp [List.append_assoc]
    · rw [if_neg hc, if_neg hc]
      simp [List.append_assoc]

theorem join_census_shape (geo census : DF) (dfl : Option (List String))
    (cats : Option Config) (res : DF)
    (hok : join_census_and_add_densities geo census dfl cats = Except.ok res) :
    ∃ l, res = (add_density_cols (outer_merge geo census) l).1.select
      (add_density_cols (outer_merge geo census) l).2 := by
  unfold join_census_and_add_densities at hok
  cases dfl with
  | some l =>
    dsimp only at hok
    exact ⟨l, (Except.ok.inj hok).symm⟩
  | none =>
    cases cats with
    | none =>
      dsimp only at hok
      exact ⟨[], (Except.ok.inj hok).symm⟩
    | some cs =>
      dsimp only at hok
      cases hd : density_fields_from_categories cs (outer_merge geo census).cols with
      | error e =>
        rw [hd] at hok
        cases hok
      | ok l =>
        rw [hd] at hok
        exact ⟨l, (Except.ok.inj hok).symm⟩

/-- C5: both merges are outer joins preserving the union of keys. First,
merging the per-partition working tables: every key of every partition
table is a key of the merged table, whose columns are the union of the
partition columns. Second, generic facts about outer_merge: a key present
on only one side keeps that side Row, so the columns the other side would
supply are undefined on it. Third, joining geometry with census data in
join_census_and_add_densities: a key or column of either input survives
into the returned table. -/
theorem claim5_theorem :
    (∀ (ps : List ((String × Nat) × DF)) (m : DF), merge_procs ps = some m →
      (∀ p ∈ ps, ∀ kr ∈ p.2.rows, m.hasKey kr.1 = true) ∧
      (∀ c, c ∈ m.cols ↔ ∃ p ∈ ps, c ∈ p.2.cols)) ∧
    (∀ (A B : DF) (k c : String) (r : Row), A.row? k = some r → B.hasKey k = false →
      (outer_merge A B).hasKey k = true ∧ (outer_merge A B).val k c = row_val r c) ∧
    (∀ (A B : DF) (k : String), A.hasKey k = false →
      ∀ c, (outer_merge A B).val k c = B.val k c) ∧
    (∀ (geo census : DF) (dfl : Option (List String)) (cats : Option Config) (res : DF),
      join_census_and_add_densities geo census dfl cats = Except.ok res →
      (∀ k, geo.hasKey k = true ∨ census.hasKey k = true → res.hasKey k = true) ∧
      (∀ c, c ∈ geo.cols ∨ c ∈ census.cols → c ∈ res.cols)) := by
  refine ⟨?_, ?_, ?_, ?_⟩
  · intro ps m h
    rcases merge_procs_props ps m h with ⟨h1, h2⟩
    exact ⟨fun p hp kr hkr => h1 p hp kr.1 (hasKey_of_mem_rows p.2 kr hkr), h2⟩
  · intro A B k c r hr hB
    refine ⟨?_, val_outer_merge_left_only A B k c r hr hB⟩
    rw [hasKey_outer_merge]
    left
    exact (hasKey_iff_row? A k).mpr ⟨r, hr⟩
  · intro A B k hA c
    exact val_outer_merge_right_only A B k c hA
  · intro geo census dfl cats res hok
    rcases join_census_shape geo census dfl cats res hok with ⟨l, hres⟩
    subst hres
    constructor
    · intro k hk
      rw [select_hasKey]
      unfold add_density_cols
      rw [add_density_fst_hasKey]
      exact (hasKey_outer_merge geo census k).mpr hk
    · intro c hc
      show c ∈ (add_density_cols (outer_merge geo census) l).2
      unfold add_density_cols
      rw [add_density_snd]
      rw [List.nil_append]
      unfold density_col_seq
      rw [List.mem_flatten]
      have hcm : c ∈ (outer_merge geo census).cols := (mem_cols_outer_merge geo census c).mpr hc
      refine ⟨if l.contains c then [c, c ++ "_density"] else [c], List.mem_map_of_mem _ hcm, ?_⟩
      by_cases hlc : l.contains c = true
      · rw [if_pos hlc]
        exact List.mem_cons_self _ _
      · rw [if_neg hlc]
        exact List.mem_singleton.mpr rfl

/-- Witness for C5 on the concrete fixture: the key g3 only present in the
geometry table and the key g2 only present in the census table both
survive the join, and the columns of both sides survive. -/
theorem claim5_witness :
    ((join_census_and_add_densities geoW dfW (some []) none).toOption.getD
      { cols := [], rows := [] }).hasKey "g3" = true ∧
    ((join_census_and_add_densities geoW dfW (some []) none).toOption.getD
      { cols := [], rows := [] }).hasKey "g2" = true ∧
    "geometry" ∈ ((join_census_and_add_densities geoW dfW (some []) none).toOption.getD
      { cols := [], rows := [] }).cols ∧
    (outer_merge geoW dfW).val "g3" "income_median" = none := by
  have h := claim5_theorem.2.2.2 geoW dfW (some []) none
    ((join_census_and_add_densities geoW dfW (some []) none).toOption.getD
      { cols := [], rows := [] }) rfl
  refine ⟨h.1 "g3" (Or.inl (by decide)), h.1 "g2" (Or.inr (by decide)),
    h.2 "geometry" (Or.inl (by decide)), ?_⟩
  have h2 := (claim5_theorem.2.1 geoW dfW "g3" "income_median" [("geometry", 8)]
    (by decide) (by decide)).2
  rw [h2]
  decide

/-! Lemmas about the values of the density loop. -/

theorem add_density_fold_val_untouched (l : List String) :
    ∀ (cols : List String) (acc : DF × List String) (k c : String),
    (∀ c0 ∈ cols, c ≠ c0 ++ "_density") →
    (cols.foldl (density_step l) acc).1.val k c = acc.1.val k c := by
  intro cols
  induction cols with
  | nil =>
    intro acc k c _
    rfl
  | cons c0 rest ih =>
    intro acc k c h
    rw [List.foldl_cons, ih _ k c (fun x hx => h x (List.mem_cons_of_mem _ hx))]
    unfold density_step
    by_cases hc : l.contains c0 = true
    · rw [if_pos hc]
      exact val_setCol_ne _ _ _ _ _ (h c0 (List.mem_cons_self _ _))
    · rw [if_neg hc]

theorem string_length_zero (s : String) (h : s.length = 0) : s = "" := by
  apply String.ext
  have hd : s.data.length = 0 := h
  exact List.length_eq_zero.mp hd

theorem geometry_ne_density (c0 : String) : "geometry" ≠ c0 ++ "_density" := by
  intro h
  have hlen := congrArg String.length h
  rw [String.length_append] at hlen
  have h8 : ("_density" : String).length = 8 := by decide
  have hg : ("geometry" : String).length = 8 := by decide
  have hc0 : c0.length = 0 := by omega
  rw [string_length_zero c0 hc0] at h
  exact absurd h (by decide)

theorem density_name_inj (a b : String) (h : a ++ "_density" = b ++ "_density") : a = b := by
  have hd := congrArg String.data h
  rw [String.data_append, String.data_append] at hd
  exact String.ext (List.append_inj' hd rfl).1

theorem density_step_fst_pos (l : List String) (acc : DF × List String) (col : String)
    (h : l.contains col = true) :
    (density_step l acc col).1 = acc.1.setCol (col ++ "_density")
      (fun k => match acc.1.val k col, acc.1.val k "geometry" with
        | some v, some a => some (v / a)
        | _, _ => none) := by
  unfold density_step
  rw [if_pos h]

theorem add_density_val (df : DF) (l : List String) (c : String)
    (hc : c ∈ df.cols) (hl : l.contains c = true) (hnd : df.cols.Nodup)
    (hcd : ∀ c0 ∈ df.cols, ∀ c1 ∈ df.cols, c0 ≠ c1 ++ "_density") (k : String)
    (hk : df.hasKey k = true) :
    (add_density_cols df l).1.val k (c ++ "_density")
      = (match df.val k c, df.val k "geometry" with
         | some v, some a => some (v / a)
         | _, _ => none) := by
  rcases List.append_of_mem hc with ⟨l1, l2, hsplit⟩
  have hnd2 : c ∉ l2 := by
    rw [hsplit] at hnd
    exact (List.nodup_cons.mp (List.Nodup.of_append_right hnd)).1
  unfold add_density_cols
  rw [hsplit, List.foldl_append, List.foldl_cons]
  have hval_c : (l1.foldl (density_step l) (df, [])).1.val k c = df.val k c :=
    add_density_fold_val_untouched l l1 (df, []) k c
      (fun x hx => hcd c hc x (by rw [hsplit]; exact List.mem_append_left _ hx))
  have hval_g : (l1.foldl (density_step l) (df, [])).1.val k "geometry"
      = df.val k "geometry" :=
    add_density_fold_val_untouched l l1 (df, []) k "geometry"
      (fun x _ => geometry_ne_density x)
  have hkey : (l1.foldl (density_step l) (df, [])).1.hasKey k = true := by
    rw [add_density_fst_hasKey]
    exact hk
  rw [add_density_fold_val_untouched l l2 _ k (c ++ "_density")
    (fun x hx heq => hnd2 ((density_name_inj c x heq) ▸ hx))]
  rw [density_step_fst_pos l _ c hl]
  rw [val_setCol_self _ _ _ _ hkey]
  rw [hval_c, hval_g]

/-- C6: for every density-eligible value column present in the joined
table, the returned table carries a column named column ++ _density placed
immediately after it, every other column keeping its original relative
order (the returned column list is exactly the interleaving
density_col_seq), and its value at each row is the column value divided by
the geometry area of that row, undefined when either is missing. Stated
under freshness hypotheses: the joined column names are duplicate-free and
none of them is itself a density name. -/
theorem claim6_theorem (geo census : DF) (dfl : List String) (res : DF)
    (hok : join_census_and_add_densities geo census (some dfl) none = Except.ok res)
    (hnd : (outer_merge geo census).cols.Nodup)
    (hfresh : ∀ c0 ∈ (outer_merge geo census).cols, ∀ c1 ∈ (outer_merge geo census).cols,
      c0 ≠ c1 ++ "_density") :
    res.cols = density_col_seq (outer_merge geo census).cols dfl ∧
    (∀ c ∈ (outer_merge geo census).cols, dfl.contains c = true →
      ∀ k, (outer_merge geo census).hasKey k = true →
        res.val k (c ++ "_density")
          = (match (outer_merge geo census).val k c,
               (outer_merge geo census).val k "geometry" with
             | some v, some a => some (v / a)
             | _, _ => none)) := by
  have hres : res = (add_density_cols (outer_merge geo census) dfl).1.select
      (add_density_cols (outer_merge geo census) dfl).2 := by
    unfold join_census_and_add_densities at hok
    dsimp only at hok
    exact (Except.ok.inj hok).symm
  subst hres
  constructor
  · show (add_density_cols (outer_merge geo census) dfl).2 = _
    unfold add_density_cols
    rw [add_density_snd, List.nil_append]
  · intro c hcm hlc k hk
    rw [select_val]
    exact add_density_val (outer_merge geo census) dfl c hcm hlc hnd hfresh k hk

/-- Witness for C6: on the fixture join, the column list is the exact
interleaving and the population density cell of row g1 equals its
population divided by its area. -/
theorem claim6_witness :
    resJW.cols = density_col_seq (outer_merge geoW dfW).cols dflW ∧
    resJW.val "g1" ("population_2020" ++ "_density")
      = (match (outer_merge geoW dfW).val "g1" "population_2020",
           (outer_merge geoW dfW).val "g1" "geometry" with
         | some v, some a => some (v / a)
         | _, _ => none) := by
  have h := claim6_theorem geoW dfW dflW resJW rfl (by decide) (by decide)
  exact ⟨h.1, h.2 "population_2020" (by decide) (by decide) "g1" (by decide)⟩

/-! Lemmas about the density-eligibility derivation. -/

theorem density_field_fold_mono (fu : List (String × Option String))
    (flds : List (String × List String)) :
    ∀ (acc r : List String), flds.foldlM (density_field_step fu) acc = Except.ok r →
    ∀ x ∈ acc, x ∈ r := by
  induction flds with
  | nil =>
    intro acc r h x hx
    rw [List.foldlM_nil] at h
    exact (Except.ok.inj h) ▸ hx
  | cons fp rest ih =>
    intro acc r h x hx
    rw [List.foldlM_cons] at h
    cases hr : resolve_universe fu fp.1 with
    | error e =>
      have hstep : density_field_step fu acc fp = Except.error e := by
        unfold density_field_step
        rw [hr]
      rw [hstep] at h
      cases h
    | ok u =>
      have hstep : density_field_step fu acc fp
          = Except.ok (if universe_truthy_not_ndr u then acc ++ [fp.1] else acc) := by
        unfold density_field_step
        rw [hr]
      rw [hstep] at h
      apply ih _ r h
      by_cases ht : universe_truthy_not_ndr u = true
      · rw [if_pos ht]
        exact List.mem_append_left _ hx
      · rw [if_neg ht]
        exact hx

theorem density_field_fold_complete (fu : List (String × Option String))
    (flds : List (String × List String)) :
    ∀ (acc r : List String), flds.foldlM (density_field_step fu) acc = Except.ok r →
    ∀ fp ∈ flds, ∀ u, resolve_universe fu fp.1 = Except.ok u →
      universe_truthy_not_ndr u = true → fp.1 ∈ r := by
  induction flds with
  | nil =>
    intro acc r h fp hfp
    exact absurd hfp (List.not_mem_nil fp)
  | cons q rest ih =>
    intro acc r h fp hfp u hu htr
    rw [List.foldlM_cons] at h
    cases hr : resolve_universe fu q.1 with
    | error e =>
      have hstep : density_field_step fu acc q = Except.error e := by
        unfold density_field_step
        rw [hr]
      rw [hstep] at h
      cases h
    | ok u2 =>
      have hstep : density_field_step fu acc q
          = Except.ok (if universe_truthy_not_ndr u2 then acc ++ [q.1] else acc) := by
        unfold density_field_step
        rw [hr]
      rw [hstep] at h
      rcases List.mem_cons.mp hfp with hfp1 | hfp1
      · subst hfp1
        rw [hu] at hr
        have hu2 : u2 = u := (Except.ok.inj hr).symm
        subst hu2
        apply density_field_fold_mono fu rest _ r h
        rw [if_pos htr]
        exact List.mem_append_right _ (List.mem_singleton.mpr rfl)
      · exact ih _ r h fp hfp1 u hu htr

theorem density_field_fold_sound (fu : List (String × Option String))
    (flds : List (String × List String)) :
    ∀ (acc r : List String), flds.foldlM (density_field_step fu) acc = Except.ok r →
    ∀ x ∈ r, x ∈ acc ∨ ∃ fp ∈ flds, x = fp.1 ∧ ∃ u,
      resolve_universe fu fp.1 = Except.ok u ∧ universe_truthy_not_ndr u = true := by
  induction flds with
  | nil =>
    intro acc r h x hx
    rw [List.foldlM_nil] at h
    exact Or.inl ((Except.ok.inj h).symm ▸ hx)
  | cons q rest ih =>
    intro acc r h x hx
    rw [List.foldlM_cons] at h
    cases hr : resolve_universe fu q.1 with
    | error e =>
      have hstep : density_field_step fu acc q = Except.error e := by
        unfold density_field_step
        rw [hr]
      rw [hstep] at h
      cases h
    | ok u2 =>
      have hstep : density_field_step fu acc q
          = Except.ok (if universe_truthy_not_ndr u2 then acc ++ [q.1] else acc) := by
        unfold density_field_step
        rw [hr]
      rw [hstep] at h
      rcases ih _ r h x hx with h1 | ⟨fp, hfp, h2⟩
      · by_cases ht : universe_truthy_not_ndr u2 = true
        · rw [if_pos ht] at h1
          rcases List.mem_append.mp h1 with h2 | h2
          · exact Or.inl h2
          · exact Or.inr ⟨q, List.mem_cons_self _ _,
              List.mem_singleton.mp h2, u2, hr, ht⟩
        · rw [if_neg ht] at h1
          exact Or.inl h1
      · exact Or.inr ⟨fp, List.mem_cons_of_mem _ hfp, h2⟩

theorem density_cat_fold_complete (cats : Config) :
    ∀ (acc r : List String), cats.foldlM density_cat_step acc = Except.ok r →
    ∀ p ∈ cats, ∀ fp ∈ p.2.fields, ∀ u,
      resolve_universe p.2.fields_universe fp.1 = Except.ok u →
      universe_truthy_not_ndr u = true → fp.1 ∈ r := by
  induction cats with
  | nil =>
    intro acc r h p hp
    exact absurd hp (List.not_mem_nil p)
  | cons q rest ih =>
    intro acc r h p hp fp hfp u hu htr
    rw [List.foldlM_cons] at h
    cases hcs : density_cat_step acc q with
    | error e =>
      rw [hcs] at h
      cases h
    | ok acc2 =>
      rw [hcs] at h
      rcases List.mem_cons.mp hp with hp1 | hp1
      · subst hp1
        have hmem : fp.1 ∈ acc2 :=
          density_field_fold_complete p.2.fields_universe p.2.fields acc acc2 hcs
            fp hfp u hu htr
        -- carry it through the remaining categories
        have h2 : rest.foldlM density_cat_step acc2 = Except.ok r := h
        clear hcs h ih hp
        induction rest generalizing acc2 with
        | nil =>
          rw [List.foldlM_nil] at h2
          exact (Except.ok.inj h2) ▸ hmem
        | cons q2 rest2 ih2 =>
          rw [List.foldlM_cons] at h2
          cases hcs2 : density_cat_step acc2 q2 with
          | error e =>
            rw [hcs2] at h2
            cases h2
          | ok acc3 =>
            rw [hcs2] at h2
            exact ih2 acc3
              (density_field_fold_mono q2.2.fields_universe q2.2.fields acc2 acc3 hcs2
                fp.1 hmem) h2
      · exact ih acc2 r h p hp1 fp hfp u hu htr

theorem density_cat_fold_sound (cats : Config) :
    ∀ (acc r : List String), cats.foldlM density_cat_step acc = Except.ok r →
    ∀ x ∈ r, x ∈ acc ∨ ∃ p ∈ cats, ∃ fp ∈ p.2.fields, x = fp.1 ∧ ∃ u,
      resolve_universe p.2.fields_universe fp.1 = Except.ok u ∧
      universe_truthy_not_ndr u = true := by
  induction cats with
  | nil =>
    intro acc r h x hx
    rw [List.foldlM_nil] at h
    exact Or.inl ((Except.ok.inj h).symm ▸ hx)
  | cons q rest ih =>
    intro acc r h x hx
    rw [List.foldlM_cons] at h
    cases hcs : density_cat_step acc q with
    | error e =>
      rw [hcs] at h
      cases h
    | ok acc2 =>
      rw [hcs] at h
      rcases ih acc2 r h x hx with h1 | ⟨p, hp, h2⟩
      · rcases density_field_fold_sound q.2.fields_universe q.2.fields acc acc2 hcs x h1
          with h2 | ⟨fp, hfp, h3⟩
        · exact Or.inl h2
        · exact Or.inr ⟨q, List.mem_cons_self _ _, fp, hfp, h3⟩
      · exact Or.inr ⟨p, List.mem_cons_of_mem _ hp, h2⟩

theorem density_fields_complete (categories : Config) (geocols : List String)
    (l : List String) (cats : Config)
    (hfmt : format_categories_dict_core categories = Except.ok cats)
    (h : density_fields_from_categories categories geocols = Except.ok l)
    (p : String × Category) (hp : p ∈ cats) (fp : String × List String)
    (hfp : fp ∈ p.2.fields) (u : Option String)
    (hu : resolve_universe p.2.fields_universe fp.1 = Except.ok u)
    (htr : universe_truthy_not_ndr u = true)
    (hg : geocols.contains fp.1 = true) : fp.1 ∈ l := by
  unfold density_fields_from_categories at h
  rw [hfmt] at h
  dsimp only at h
  cases hdfs : cats.foldlM density_cat_step ([] : List String) with
  | error e =>
    rw [hdfs] at h
    cases h
  | ok dfs =>
    rw [hdfs] at h
    have hl : l = dfs.filter (fun f => geocols.contains f) := (Except.ok.inj h).symm
    subst hl
    rw [List.mem_filter]
    exact ⟨density_cat_fold_complete cats [] dfs hdfs p hp fp hfp u hu htr, hg⟩

theorem density_fields_sound (categories : Config) (geocols : List String)
    (l : List String) (cats : Config)
    (hfmt : format_categories_dict_core categories = Except.ok cats)
    (h : density_fields_from_categories categories geocols = Except.ok l)
    (x : String) (hx : x ∈ l) :
    ∃ p ∈ cats, ∃ fp ∈ p.2.fields, x = fp.1 ∧ ∃ u,
      resolve_universe p.2.fields_universe fp.1 = Except.ok u ∧
      universe_truthy_not_ndr u = true := by
  unfold density_fields_from_categories at h
  rw [hfmt] at h
  dsimp only at h
  cases hdfs : cats.foldlM density_cat_step ([] : List String) with
  | error e =>
    rw [hdfs] at h
    cases h
  | ok dfs =>
    rw [hdfs] at h
    have hl : l = dfs.filter (fun f => geocols.contains f) := (Except.ok.inj h).symm
    subst hl
    rcases density_cat_fold_sound cats [] dfs hdfs x (List.mem_filter.mp hx).1
      with h1 | h1
    · exact absurd h1 (List.not_mem_nil x)
    · exact h1

/-! Lemmas about the ratio computation of one processing step. -/

theorem ratio_name_inj (a b : String) (h : a ++ "_ratio" = b ++ "_ratio") : a = b := by
  have hd := congrArg String.data h
  rw [String.data_append, String.data_append] at hd
  exact String.ext (List.append_inj' hd rfl).1

theorem proc_step_procs_eq (raw : String → Nat → DF) (cr : Bool) (st : ProcState)
    (f : RField) (hc : (cr && universe_concrete f.universe_code) = true) :
    (proc_step raw cr st f).procs
      = aset st.procs (f.source, f.year) (proc_ratio_df raw st f) := by
  simp only [proc_step, proc_acc1, proc_df1, proc_ratio_df, hc, if_true]

theorem proc_step_ratio (raw : String → Nat → DF) (st : ProcState) (f : RField)
    (hu : universe_concrete f.universe_code = true) :
    afind (proc_step raw true st f).procs (f.source, f.year)
      = some (proc_ratio_df raw st f) ∧
    (f.name ++ "_ratio") ∈ (proc_step raw true st f).order ∧
    ∀ k, (proc_ratio_df raw st f).hasKey k = true →
      (proc_ratio_df raw st f).val k (f.name ++ "_ratio")
        = ((raw f.source f.year).val k (f.universe_code.getD "")).map
            (fun u => sum_val (raw f.source f.year) f.sum_codes k / u) := by
  have hc : (true && universe_concrete f.universe_code) = true := by
    rw [Bool.true_and]
    exact hu
  refine ⟨?_, ?_, ?_⟩
  · rw [proc_step_procs_eq raw true st f hc]
    exact afind_aset_self _ _ _
  · rw [proc_step_order_eq, if_pos hc]
    exact self_mem_add_fieldname _ _ _
  · intro k hk
    have hk1 : (proc_df1 raw st f).hasKey k = true := by
      rw [← hasKey_setCol (proc_df1 raw st f) (f.name ++ "_ratio") _ k]
      exact hk
    have hk0 : (proc_acc1 raw st f).1.hasKey k = true := by
      rw [← hasKey_setCol (proc_acc1 raw st f).1 f.name _ k]
      exact hk1
    unfold proc_ratio_df
    rw [val_setCol_self _ _ _ _ hk1]
    have hsum : (proc_df1 raw st f).val k f.name
        = some (sum_val (raw f.source f.year) f.sum_codes k) := by
      unfold proc_df1
      rw [val_setCol_self _ _ _ _ hk0]
    rw [hsum]
    cases (raw f.source f.year).val k (f.universe_code.getD "") <;> rfl

theorem mem_density_col_seq (cols dfl : List String) (x : String) :
    x ∈ density_col_seq cols dfl ↔ x ∈ cols ∨
      ∃ c ∈ cols, dfl.contains c = true ∧ x = c ++ "_density" := by
  unfold density_col_seq
  rw [List.mem_flatten]
  constructor
  · rintro ⟨l0, hl0, hx⟩
    rcases List.mem_map.mp hl0 with ⟨c, hc, rfl⟩
    by_cases hdc : dfl.contains c = true
    · rw [if_pos hdc] at hx
      rcases List.mem_cons.mp hx with h1 | h1
      · exact Or.inl (h1 ▸ hc)
      · exact Or.inr ⟨c, hc, hdc, List.mem_singleton.mp h1⟩
    · rw [if_neg hdc] at hx
      exact Or.inl ((List.mem_singleton.mp hx) ▸ hc)
  · rintro (hx | ⟨c, hc, hdc, hx⟩)
    · refine ⟨if dfl.contains x then [x, x ++ "_density"] else [x],
        List.mem_map_of_mem _ hx, ?_⟩
      by_cases hdx : dfl.contains x = true
      · rw [if_pos hdx]
        exact List.mem_cons_self _ _
      · rw [if_neg hdx]
        exact List.mem_singleton.mpr rfl
    · refine ⟨[c, c ++ "_density"], ?_, ?_⟩
      · have : (if dfl.contains c then [c, c ++ "_density"] else [c]) = [c, c ++ "_density"] := by
          rw [if_pos hdc]
        exact this ▸ List.mem_map_of_mem _ hc
      · exact hx ▸ List.mem_cons_of_mem _ (List.mem_singleton.mpr rfl)

/-- C2: universe-code semantics of the ratio and density computation.
With ratios enabled, a field with a concrete universe code gets the
column field_ratio in its partition working table, registered in the
output order, with each cell the row-wise quotient of the sum column by
the universe cell. A field whose universe code is not concrete, which
covers the DENSITY_ONLY and NO_DENSITY_OR_RATIO sentinels, never gets a
ratio column in the returned table. In the density derivation of
join_census_and_add_densities, a field whose resolved universe is the
DENSITY_ONLY sentinel stays density-eligible, a field all of whose
occurrences resolve to NO_DENSITY_OR_RATIO or a falsy universe is never
density-eligible, and no density column is ever emitted for a name
outside the eligible list. -/
theorem claim2_theorem :
    (∀ (raw : String → Nat → DF) (st : ProcState) (f : RField),
      universe_concrete f.universe_code = true →
      afind (proc_step raw true st f).procs (f.source, f.year)
        = some (proc_ratio_df raw st f) ∧
      (f.name ++ "_ratio") ∈ (proc_step raw true st f).order ∧
      ∀ k, (proc_ratio_df raw st f).hasKey k = true →
        (proc_ratio_df raw st f).val k (f.name ++ "_ratio")
          = ((raw f.source f.year).val k (f.universe_code.getD "")).map
              (fun u => sum_val (raw f.source f.year) f.sum_codes k / u)) ∧
    (∀ (categories : Config) (raw : String → Nat → DF) (cr : Bool) (fs : List RField)
      (nm : Bool) (df : DF) (f : RField),
      resolved_fields categories = Except.ok fs →
      (∀ s y, (raw s y).cols.contains "GEOID" = true ∧
        (raw s y).cols.contains "NAME" = nm) →
      "GEOID" ∉ col_seq cr fs → "NAME" ∉ col_seq cr fs → (col_seq cr fs).Nodup →
      get_census_fields categories raw cr = Except.ok df →
      f ∈ fs → universe_concrete f.universe_code = false →
      (∀ g ∈ fs, g.name ≠ f.name ++ "_ratio") →
      (∀ g ∈ fs, g.name = f.name → universe_concrete g.universe_code = false) →
      (f.name ++ "_ratio") ∉ df.cols) ∧
    (∀ (categories : Config) (geocols l : List String) (cats : Config)
      (p : String × Category) (fp : String × List String),
      format_categories_dict_core categories = Except.ok cats →
      density_fields_from_categories categories geocols = Except.ok l →
      p ∈ cats → fp ∈ p.2.fields →
      resolve_universe p.2.fields_universe fp.1 = Except.ok (some "DENSITY_ONLY") →
      geocols.contains fp.1 = true → fp.1 ∈ l) ∧
    (∀ (categories : Config) (geocols l : List String) (cats : Config) (n : String),
      format_categories_dict_core categories = Except.ok cats →
      density_fields_from_categories categories geocols = Except.ok l →
      (∀ p ∈ cats, ∀ fp ∈ p.2.fields, fp.1 = n →
        resolved_universe_truthy p.2.fields_universe fp.1 = false) →
      n ∉ l) ∧
    (∀ (geo census : DF) (categories : Config) (res : DF) (n : String) (l : List String),
      join_census_and_add_densities geo census none (some categories) = Except.ok res →
      density_fields_from_categories categories (outer_merge geo census).cols
        = Except.ok l →
      l.contains n = false →
      (n ++ "_density") ∉ (outer_merge geo census).cols →
      (n ++ "_density") ∉ res.cols) := by
  refine ⟨proc_step_ratio, ?_, ?_, ?_, ?_⟩
  · intro categories raw cr fs nm df f hfs hraw hg hn hnd hok hf hu hno hsame hmem
    have hne := get_census_fields_fs_ne_nil categories raw cr fs df hfs hok
    rcases get_census_fields_shape categories raw cr fs df hfs hok with ⟨m, _, hdf⟩
    have horder := process_fields_order raw cr fs nm hraw hg hn hnd hne
    subst hdf
    have hcols : (m.select (process_fields raw cr fs).order).cols
        = id_cols nm ++ col_seq cr fs := horder
    rw [hcols] at hmem
    rcases List.mem_append.mp hmem with h1 | h1
    · unfold id_cols at h1
      cases nm with
      | true =>
        rcases List.mem_cons.mp h1 with h2 | h2
        · exact append_ratio_ne_geoid f.name h2
        · exact append_ratio_ne_name f.name (List.mem_singleton.mp h2)
      | false => exact append_ratio_ne_geoid f.name (List.mem_singleton.mp h1)
    · rcases (mem_col_seq cr fs _).mp h1 with ⟨g, hgf, h2 | ⟨hge, h2⟩⟩
      · exact hno g hgf h2.symm
      · have hname : f.name = g.name := ratio_name_inj _ _ h2
        have hconc := hsame g hgf hname.symm
        rw [Bool.and_eq_true] at hge
        rw [hconc] at hge
        exact Bool.noConfusion hge.2
  · intro categories geocols l cats p fp hfmt h hp hfp hu hg
    exact density_fields_complete categories geocols l cats hfmt h p hp fp hfp
      (some "DENSITY_ONLY") hu rfl hg
  · intro categories geocols l cats n hfmt h hall hmem
    rcases density_fields_sound categories geocols l cats hfmt h n hmem
      with ⟨p, hp, fp, hfp, hxn, u, hu, htr⟩
    have hfalse := hall p hp fp hfp hxn.symm
    unfold resolved_universe_truthy at hfalse
    rw [hu] at hfalse
    dsimp only at hfalse
    rw [htr] at hfalse
    exact Bool.noConfusion hfalse
  · intro geo census categories res n l hok hd hlc hncols hmem
    unfold join_census_and_add_densities at hok
    dsimp only at hok
    rw [hd] at hok
    have hres : res = (add_density_cols (outer_merge geo census) l).1.select
        (add_density_cols (outer_merge geo census) l).2 := (Except.ok.inj hok).symm
    subst hres
    have hres_cols : (add_density_cols (outer_merge geo census) l).2
        = density_col_seq (outer_merge geo census).cols l := by
      unfold add_density_cols
      rw [add_density_snd, List.nil_append]
    rw [show ((add_density_cols (outer_merge geo census) l).1.select
      (add_density_cols (outer_merge geo census) l).2).cols
      = (add_density_cols (outer_merge geo census) l).2 from rfl, hres_cols] at hmem
    rcases (mem_density_col_seq _ _ _).mp hmem with h1 | ⟨c, hc, hdc, h1⟩
    · exact hncols h1
    · have hcn : n = c := density_name_inj n c h1
      rw [hcn] at hlc
      rw [hdc] at hlc
      exact Bool.noConfusion hlc

/-- Witness for C2 on the fixtures: the poverty field has a concrete
universe and its ratio cell at g1 is the quotient; the median field with
the NO_DENSITY_OR_RATIO sentinel has no ratio column in the output and is
not density-eligible, and its density column never appears in the joined
output; the population field with DENSITY_ONLY stays density-eligible. -/
theorem claim2_witness :
    afind (proc_step rawOracleW true st0W fRatioW).procs (fRatioW.source, fRatioW.year)
      = some (proc_ratio_df rawOracleW st0W fRatioW) ∧
    ("income_050PercentPoverty" ++ "_ratio") ∈ (proc_step rawOracleW true st0W fRatioW).order ∧
    (proc_ratio_df rawOracleW st0W fRatioW).val "g1" ("income_050PercentPoverty" ++ "_ratio")
      = ((rawOracleW "acs/acs5" 2023).val "g1" (fRatioW.universe_code.getD "")).map
          (fun u => sum_val (rawOracleW "acs/acs5" 2023) fRatioW.sum_codes "g1" / u) ∧
    ("income_median" ++ "_ratio") ∉ dfW.cols ∧
    fpPopW.1 ∈ dfldW ∧
    "income_median" ∉ dfldW ∧
    ("income_median" ++ "_density") ∉ resJ2W.cols := by
  obtain ⟨hfind, hord, hval⟩ := claim2_theorem.1 rawOracleW st0W fRatioW (by decide)
  refine ⟨hfind, hord, hval "g1" (by decide), ?_, ?_, ?_, ?_⟩
  · exact claim2_theorem.2.1 cfgW rawOracleW true fsW false dfW fMedW rfl
      (fun _ _ => ⟨rfl, rfl⟩) (by decide) (by decide) (by decide) rfl
      (by exact List.mem_cons_self _ _)
      (by decide) (by decide) (by decide)
  · exact claim2_theorem.2.2.1 cfgW (outer_merge geoW dfW).cols dfldW catsFW pPopW fpPopW
      rfl rfl (by exact List.mem_cons_of_mem _ (List.mem_cons_self _ _))
      (by exact List.mem_cons_self _ _) rfl (by decide)
  · exact claim2_theorem.2.2.2.1 cfgW (outer_merge geoW dfW).cols dfldW catsFW
      "income_median" rfl rfl (by decide)
  · exact claim2_theorem.2.2.2.2 geoW dfW cfgW resJ2W "income_median" dfldW rfl rfl
      (by decide) (by decide)

end Hackathon
